import Mathlib

/-!
# go-haachain: light API backend, full node backend and the on-demand retrieval core

A shallow embedding of the parts of the repository the verified properties are about.

* `Haachain.les`  : `les/api_backend.go` (the light client API backend).
* `Haachain.haa`  : `haa/api_backend.go`, `haa/backend.go` (the full node service) and
  `haa/metrics.go` (the metered message stream).
* `Haachain.Odr`  : the request distributor, retrieve manager, server pool and chain
  indexer.  Their Go files are not part of the source tree at hand (only the wiring in
  `les/backend.go` is), so these definitions are modelled from the specification.

Go values are embedded as follows.  A pointer that may be nil is an `Option`, a Go `error`
is an `Option Err` (nil is `none`), a multi-value return is a tuple.  Calls into
collaborators are recorded in a call list returned next to the result, so that statements
of the form *X is never invoked* can be expressed.  Go `int` and `int64` are integers with
explicit two-complement wrapping where a conversion or subtraction can overflow.
-/

namespace Haachain

/-! ## Machine integers -/

/-- The Go conversion `uint64(x)` of a signed 64 bit value. -/
def uint64 (x : Int) : Nat := (x % 2 ^ 64).toNat

/-- Whether an integer is representable as a Go `int` (64 bit). -/
def isInt (x : Int) : Prop := -(2 ^ 63) ≤ x ∧ x < 2 ^ 63

instance (x : Int) : Decidable (isInt x) := by
  unfold isInt; infer_instance

/-- Wrap a mathematical integer into the Go `int` range (two-complement, 64 bit). -/
def wrapInt (x : Int) : Int := (x + 2 ^ 63) % 2 ^ 64 - 2 ^ 63

/-! ## Errors -/

/-- The errors constructed by the embedded code, plus `other` for errors handed back by
collaborators. -/
inductive Err where
  /-- The error of `New` for light sync: "can not run haa.haachain in light sync mode". -/
  | lightSyncMode
  /-- The error `fmt.Errorf("invalid sync mode %d", config.SyncMode)`. -/
  | invalidSyncMode (mode : Int)
  /-- The error `fmt.Errorf("Blockchain DB version mismatch (%d / %d). ...")`. -/
  | bcVersionMismatch (found wanted : Int)
  /-- The error "invalid peer config: light peer count (%d) >= total peer count (%d)". -/
  | invalidPeerConfig (light total : Int)
  /-- The error `fmt.Errorf("haaerbase must be explicitly specified")`. -/
  | haaerbaseUnspecified
  /-- An error returned by a collaborator (database, chain, network). -/
  | other (msg : String)
  deriving DecidableEq, Repr

/-! ## Core types (package `types`, `state`, `rpc`) -/

namespace types

/-- A block header: the fields the embedded code reads, and its hash. -/
structure Header where
  Number : Nat
  Root : Nat
  hash : Nat
  deriving DecidableEq, Repr

/-- The method `(*Header).Hash`. -/
def Header.Hash (h : Header) : Nat := h.hash

/-- A block: a header and a body. -/
structure Block where
  header : Header
  body : Nat
  deriving DecidableEq, Repr

/-- The method `(*Block).Header`. -/
def Block.Header (b : Block) : Header := b.header

end types

namespace state

/-- A state database handle, identified by the state root it was opened at. -/
structure StateDB where
  root : Nat
  deriving DecidableEq, Repr

end state

namespace rpc

/-- The two distinguished values of `rpc.BlockNumber` (an `int64`) that the backends
compare against.  Package `rpc` is not part of the source tree, so they are parameters. -/
structure BlockNumbers where
  PendingBlockNumber : Int
  LatestBlockNumber : Int
  deriving DecidableEq, Repr

end rpc

namespace accounts

/-- An account: the field of `accounts.Account` the embedded code reads.  An address is a
number, the zero address `common.Address{}` is 0. -/
structure Account where
  Address : Nat
  deriving DecidableEq, Repr

/-- A wallet, given by what its method `Accounts()` returns. -/
structure Wallet where
  Accounts : List Account
  deriving DecidableEq, Repr

/-- The account manager, given by what its method `Wallets()` returns. -/
structure Manager where
  Wallets : List Wallet
  deriving DecidableEq, Repr

end accounts

namespace params

/-- The proof-of-authority settings `params.CliqueConfig`. -/
structure CliqueConfig where
  Period : Nat
  Epoch : Nat
  deriving DecidableEq, Repr

/-- The field of `params.ChainConfig` that `CreateConsensusEngine` reads; a nil `Clique`
pointer is `none`. -/
structure ChainConfig where
  Clique : Option CliqueConfig
  deriving DecidableEq, Repr

end params

namespace ethash

/-- The settings `ethash.Config`; `PowMode` is an unsigned integer. -/
structure Config where
  CacheDir : String
  CachesInMem : Int
  CachesOnDisk : Int
  DatasetDir : String
  DatasetsInMem : Int
  DatasetsOnDisk : Int
  PowMode : Nat
  deriving DecidableEq, Repr

/-- The values of `ethash.ModeFake`, `ethash.ModeTest` and `ethash.ModeShared`.  Package
`ethash` is not part of the source tree, so they are parameters. -/
structure Modes where
  ModeFake : Nat
  ModeTest : Nat
  ModeShared : Nat
  deriving DecidableEq, Repr

/-- A full ethash engine: the configuration `ethash.New` was called with, and the
argument of the last `SetThreads` call on it, if any. -/
structure Ethash where
  config : Config
  threads : Option Int
  deriving DecidableEq, Repr

/-- The constructor `ethash.New(config)`; `SetThreads` has not been called yet. -/
def New (config : Config) : Ethash := { config := config, threads := none }

/-- The method `(*Ethash).SetThreads(threads)`. -/
def Ethash.SetThreads (e : Ethash) (threads : Int) : Ethash :=
  { e with threads := some threads }

end ethash

namespace consensus

/-- The consensus engines `CreateConsensusEngine` can return, by the constructor that
built them: `clique.New(config, db)`, `ethash.NewFaker()`, `ethash.NewTester()`,
`ethash.NewShared()`, or a full ethash engine. -/
inductive Engine where
  | clique (config : params.CliqueConfig)
  | ethashFaker
  | ethashTester
  | ethashShared
  | ethash (engine : ethash.Ethash)
  deriving DecidableEq, Repr

end consensus

/-! ## `les/api_backend.go` -/

namespace les

/-- The methods of `light.LightChain` used by the API backend. -/
structure LightChain where
  CurrentHeader : Option types.Header
  GetHeaderByNumberOdr : Nat → Option types.Header × Option Err
  GetBlockByHash : Nat → Option types.Block × Option Err

/-- What `LesApiBackend` reaches through `b.haa`: the light chain, and `light.NewState`
applied to the ODR backend. -/
structure LesApiBackend where
  blockchain : LightChain
  NewState : types.Header → state.StateDB

/-- Calls made by the API backend, in the order they happen. -/
inductive Call where
  | CurrentHeader
  | GetHeaderByNumberOdr (number : Nat)
  | GetBlock (blockHash : Nat)
  | NewState (header : types.Header)
  deriving DecidableEq, Repr

/-- A result together with the calls made while computing it. -/
structure Traced (α : Type) where
  val : α
  calls : List Call

/-- Source: `func (b *LesApiBackend) HeaderByNumber(ctx, blockNr) (*types.Header, error)` -/
def HeaderByNumber (c : rpc.BlockNumbers) (b : LesApiBackend) (blockNr : Int) :
    Traced (Option types.Header × Option Err) :=
  if blockNr = c.LatestBlockNumber ∨ blockNr = c.PendingBlockNumber then
    ⟨(b.blockchain.CurrentHeader, none), [Call.CurrentHeader]⟩
  else
    ⟨b.blockchain.GetHeaderByNumberOdr (uint64 blockNr),
      [Call.GetHeaderByNumberOdr (uint64 blockNr)]⟩

/-- Source: `func (b *LesApiBackend) GetBlock(ctx, blockHash) (*types.Block, error)` -/
def GetBlock (b : LesApiBackend) (blockHash : Nat) :
    Traced (Option types.Block × Option Err) :=
  ⟨b.blockchain.GetBlockByHash blockHash, [Call.GetBlock blockHash]⟩

/-- Source: `func (b *LesApiBackend) BlockByNumber(ctx, blockNr) (*types.Block, error)` -/
def BlockByNumber (c : rpc.BlockNumbers) (b : LesApiBackend) (blockNr : Int) :
    Traced (Option types.Block × Option Err) :=
  let r := HeaderByNumber c b blockNr
  match r.val with
  | (some header, none) =>
    let g := GetBlock b header.Hash
    ⟨g.val, r.calls ++ g.calls⟩
  | (_, err) => ⟨(none, err), r.calls⟩

/-- Source: `func (b *LesApiBackend) StateAndHeaderByNumber(ctx, blockNr)
(*state.StateDB, *types.Header, error)` -/
def StateAndHeaderByNumber (c : rpc.BlockNumbers) (b : LesApiBackend) (blockNr : Int) :
    Traced (Option state.StateDB × Option types.Header × Option Err) :=
  let r := HeaderByNumber c b blockNr
  match r.val with
  | (some header, none) =>
    ⟨(some (b.NewState header), some header, none), r.calls ++ [Call.NewState header]⟩
  | (_, err) => ⟨(none, none, err), r.calls⟩

end les

/-! ## `haa/api_backend.go` -/

namespace haa

/-- The methods of `core.BlockChain` used by the API backend.  `CurrentBlock` is taken
to return a block: the chain always has a head. -/
structure BlockChain where
  CurrentBlock : types.Block
  GetHeaderByNumber : Nat → Option types.Header
  GetBlockByNumber : Nat → Option types.Block

/-- The method of `miner.Miner` used by the API backend.  `PendingBlock` is taken to
return a block; its `Header()` is read without a nil check in `HeaderByNumber`. -/
structure Miner where
  PendingBlock : types.Block

/-- What `haaApiBackend` reaches through `b.haa`. -/
structure haaApiBackend where
  blockchain : BlockChain
  miner : Miner

/-- Source: `func (b *haaApiBackend) HeaderByNumber(ctx, blockNr) (*types.Header, error)` -/
def HeaderByNumber (c : rpc.BlockNumbers) (b : haaApiBackend) (blockNr : Int) :
    Option types.Header × Option Err :=
  if blockNr = c.PendingBlockNumber then
    let block := b.miner.PendingBlock
    (some block.Header, none)
  else if blockNr = c.LatestBlockNumber then
    (some b.blockchain.CurrentBlock.Header, none)
  else
    (b.blockchain.GetHeaderByNumber (uint64 blockNr), none)

/-- Source: `func (b *haaApiBackend) BlockByNumber(ctx, blockNr) (*types.Block, error)` -/
def BlockByNumber (c : rpc.BlockNumbers) (b : haaApiBackend) (blockNr : Int) :
    Option types.Block × Option Err :=
  if blockNr = c.PendingBlockNumber then
    let block := b.miner.PendingBlock
    (some block, none)
  else if blockNr = c.LatestBlockNumber then
    (some b.blockchain.CurrentBlock, none)
  else
    (b.blockchain.GetBlockByNumber (uint64 blockNr), none)

/-! ## `haa/backend.go` -/

/-- The fields of `haa.Config` read by `New` and `Start`. -/
structure Config where
  SyncMode : Int
  LightServ : Int
  LightPeers : Int
  SkipBcVersionCheck : Bool
  ExtraData : List Nat
  NetworkId : Nat
  GasPrice : Option Int
  GPODefault : Option Int
  haaerbase : Nat
  deriving DecidableEq, Repr

/-- The three ways `core.SetupGenesisBlock` can end: no error, a
`*params.ConfigCompatError` (which carries the block to rewind to), any other error. -/
inductive GenesisResult where
  | ok
  | compatError (RewindTo : Nat)
  | failure (e : Err)
  deriving DecidableEq, Repr

/-- The surroundings of `New`: constants of packages that are not part of the source
tree (`downloader.LightSync`, `SyncMode.IsValid`, `core.BlockChainVersion`,
`params.MaximumExtraDataSize`, the default extra data that `rlp.EncodeToBytes`
produces) and the results of the collaborators `New` calls. -/
structure Env where
  LightSync : Int
  IsValid : Int → Bool
  OpenDatabase : Option Err
  SetupGenesisBlock : GenesisResult
  GetBlockChainVersion : Int
  BlockChainVersion : Int
  NewBlockChain : Except Err BlockChain
  NewProtocolManager : Option Err
  minerNew : Miner
  AccountManager : accounts.Manager
  defaultExtra : List Nat
  MaximumExtraDataSize : Nat

/-- Calls made by `New` and `Start`, in the order they happen. -/
inductive Call where
  | CreateDB
  | upgradeDeduplicateData
  | SetupGenesisBlock
  | CreateConsensusEngine
  | NewBloomIndexer
  | GetBlockChainVersion
  | WriteBlockChainVersion
  | NewBlockChain
  | SetHead (number : Nat)
  | WriteChainConfig
  | bloomIndexerStart
  | NewTxPool
  | NewProtocolManager
  | minerNew
  | SetExtra (extra : Option (List Nat))
  | NewOracle (gpoDefault : Option Int)
  | startBloomHandlers
  | NewPublicNetAPI
  | protocolManagerStart (maxPeers : Int)
  | lesServerStart
  | Wallets
  | Accounts
  deriving DecidableEq, Repr

/-- The `haachain` service object: the fields set by `New` that the embedded methods
read.  `lesServer` records whether the `lesServer` field is non-nil. -/
structure haachain where
  config : Config
  blockchain : BlockChain
  miner : Miner
  networkId : Nat
  gasPrice : Option Int
  haaerbase : Nat
  accountManager : accounts.Manager
  lesServer : Bool

/-- Source: `func makeExtraData(extra []byte) []byte`.  A nil slice is `none`; the
default produced by `rlp.EncodeToBytes` is the parameter `defaultExtra`. -/
def makeExtraData (defaultExtra : List Nat) (MaximumExtraDataSize : Nat)
    (extra : List Nat) : Option (List Nat) :=
  let extra := if extra.length = 0 then defaultExtra else extra
  if extra.length > MaximumExtraDataSize then none else some extra

/-- Source: `func CreateDB(ctx, config, name) (haadb.Database, error)`: the error of
`ctx.OpenDatabase`, with the call recorded. -/
def CreateDB (env : Env) : Option Err × List Call :=
  (env.OpenDatabase, [Call.CreateDB])

/-- The part of `New` after the block chain version check. -/
def NewAfterVersionCheck (env : Env) (config : Config) (calls : List Call) :
    Option haachain × Option Err × List Call :=
  let calls := calls ++ [Call.NewBlockChain]
  match env.NewBlockChain with
  | Except.error err => (none, some err, calls)
  | Except.ok blockchain =>
    let calls :=
      match env.SetupGenesisBlock with
      | GenesisResult.compatError rewindTo =>
        calls ++ [Call.SetHead rewindTo, Call.WriteChainConfig]
      | _ => calls
    let calls := calls ++ [Call.bloomIndexerStart, Call.NewTxPool, Call.NewProtocolManager]
    match env.NewProtocolManager with
    | some err => (none, some err, calls)
    | none =>
      let extra := makeExtraData env.defaultExtra env.MaximumExtraDataSize config.ExtraData
      let gpoDefault :=
        match config.GPODefault with
        | none => config.GasPrice
        | some d => some d
      (some
          { config := config
            blockchain := blockchain
            miner := env.minerNew
            networkId := config.NetworkId
            gasPrice := config.GasPrice
            haaerbase := config.haaerbase
            accountManager := env.AccountManager
            lesServer := false },
        none,
        calls ++ [Call.minerNew, Call.SetExtra extra, Call.NewOracle gpoDefault])

/-- Source: `func New(ctx *node.ServiceContext, config *Config) (*haachain, error)`.
Returns the service (nil is `none`), the error, and the calls made. -/
def New (env : Env) (config : Config) : Option haachain × Option Err × List Call :=
  if config.SyncMode = env.LightSync then
    (none, some Err.lightSyncMode, [])
  else if !env.IsValid config.SyncMode then
    (none, some (Err.invalidSyncMode config.SyncMode), [])
  else
    match CreateDB env with
    | (some err, calls) => (none, some err, calls)
    | (none, calls) =>
      let calls := calls ++ [Call.upgradeDeduplicateData, Call.SetupGenesisBlock]
      match env.SetupGenesisBlock with
      | GenesisResult.failure genesisErr => (none, some genesisErr, calls)
      | _ =>
        let calls := calls ++ [Call.CreateConsensusEngine, Call.NewBloomIndexer]
        if config.SkipBcVersionCheck then
          NewAfterVersionCheck env config calls
        else
          let calls := calls ++ [Call.GetBlockChainVersion]
          let bcVersion := env.GetBlockChainVersion
          if bcVersion ≠ env.BlockChainVersion ∧ bcVersion ≠ 0 then
            (none, some (Err.bcVersionMismatch bcVersion env.BlockChainVersion), calls)
          else
            NewAfterVersionCheck env config (calls ++ [Call.WriteBlockChainVersion])

/-- The `p2p.Server` field read by `Start`. -/
structure Server where
  MaxPeers : Int
  deriving DecidableEq, Repr

/-- The end of `Start`: start the networking layer with `maxPeers`, and the light
server if one was added. -/
def startNetworking (s : haachain) (calls : List Call) (maxPeers : Int) :
    Option Err × List Call :=
  let calls := calls ++ [Call.protocolManagerStart maxPeers]
  if s.lesServer then (none, calls ++ [Call.lesServerStart]) else (none, calls)

/-- Source: `func (s *haachain) Start(srvr *p2p.Server) error`.  Returns the error and
the calls made.  `maxPeers -= s.config.LightPeers` is a Go `int` subtraction. -/
def Start (s : haachain) (srvr : Server) : Option Err × List Call :=
  let calls := [Call.startBloomHandlers, Call.NewPublicNetAPI]
  let maxPeers := srvr.MaxPeers
  if s.config.LightServ > 0 then
    if s.config.LightPeers ≥ srvr.MaxPeers then
      (some (Err.invalidPeerConfig s.config.LightPeers srvr.MaxPeers), calls)
    else
      startNetworking s calls (wrapInt (maxPeers - s.config.LightPeers))
  else
    startNetworking s calls maxPeers

/-- The length `len(extra)` of a byte slice; a nil slice has length 0. -/
def sliceLen : Option (List Nat) → Nat
  | none => 0
  | some bytes => bytes.length

/-- Source: `func (s *haachain) haaerbase() (eb common.Address, err error)`.  Returns the
address and the error, the service afterwards (the method may store the address), and
the calls made. -/
def haaerbase (s : haachain) : (Nat × Option Err) × haachain × List Call :=
  let haaerbase := s.haaerbase
  if haaerbase ≠ 0 then
    ((haaerbase, none), s, [])
  else
    match s.accountManager.Wallets with
    | wallet :: _ =>
      match wallet.Accounts with
      | account :: _ =>
        let haaerbase := account.Address
        ((haaerbase, none), { s with haaerbase := haaerbase }, [Call.Wallets, Call.Accounts])
      | [] => ((0, some Err.haaerbaseUnspecified), s, [Call.Wallets, Call.Accounts])
    | [] => ((0, some Err.haaerbaseUnspecified), s, [Call.Wallets])

/-- Source: `func CreateConsensusEngine(ctx, config *ethash.Config, chainConfig, db)
consensus.Engine`.  `ResolvePath` is `ctx.ResolvePath`; the configuration literal of the
default case leaves `PowMode` at its zero value. -/
def CreateConsensusEngine (modes : ethash.Modes) (ResolvePath : String → String)
    (config : ethash.Config) (chainConfig : params.ChainConfig) : consensus.Engine :=
  match chainConfig.Clique with
  | some clique => consensus.Engine.clique clique
  | none =>
    if config.PowMode = modes.ModeFake then consensus.Engine.ethashFaker
    else if config.PowMode = modes.ModeTest then consensus.Engine.ethashTester
    else if config.PowMode = modes.ModeShared then consensus.Engine.ethashShared
    else
      let engine := ethash.New
        { CacheDir := ResolvePath config.CacheDir
          CachesInMem := config.CachesInMem
          CachesOnDisk := config.CachesOnDisk
          DatasetDir := config.DatasetDir
          DatasetsInMem := config.DatasetsInMem
          DatasetsOnDisk := config.DatasetsOnDisk
          PowMode := 0 }
      consensus.Engine.ethash (engine.SetThreads (-1))

/-! ## `haa/metrics.go` -/

/-- The eight groups of meters declared in `metrics.go`: propagated transactions,
hashes and blocks, requested headers, bodies, states and receipts, and the rest. -/
inductive Category where
  | propTxn
  | propHash
  | propBlock
  | reqHeader
  | reqBody
  | reqState
  | reqReceipt
  | misc
  deriving DecidableEq, Repr

/-- All categories of meters. -/
def Category.all : List Category :=
  [Category.propTxn, Category.propHash, Category.propBlock, Category.reqHeader,
    Category.reqBody, Category.reqState, Category.reqReceipt, Category.misc]

/-- The direction of a meter: inbound or outbound. -/
inductive Direction where
  | In
  | Out
  deriving DecidableEq, Repr

/-- What a meter counts: packets or traffic (bytes). -/
inductive Quantity where
  | Packets
  | Traffic
  deriving DecidableEq, Repr

/-- One of the 32 registered meters of `metrics.go`, such as "haa/req/headers/in/packets". -/
structure Meter where
  category : Category
  direction : Direction
  quantity : Quantity
  deriving DecidableEq, Repr

/-- The meter `propTxnInPacketsMeter`. -/
def propTxnInPacketsMeter : Meter := ⟨Category.propTxn, Direction.In, Quantity.Packets⟩
/-- The meter `propTxnInTrafficMeter`. -/
def propTxnInTrafficMeter : Meter := ⟨Category.propTxn, Direction.In, Quantity.Traffic⟩
/-- The meter `propTxnOutPacketsMeter`. -/
def propTxnOutPacketsMeter : Meter := ⟨Category.propTxn, Direction.Out, Quantity.Packets⟩
/-- The meter `propTxnOutTrafficMeter`. -/
def propTxnOutTrafficMeter : Meter := ⟨Category.propTxn, Direction.Out, Quantity.Traffic⟩
/-- The meter `propHashInPacketsMeter`. -/
def propHashInPacketsMeter : Meter := ⟨Category.propHash, Direction.In, Quantity.Packets⟩
/-- The meter `propHashInTrafficMeter`. -/
def propHashInTrafficMeter : Meter := ⟨Category.propHash, Direction.In, Quantity.Traffic⟩
/-- The meter `propHashOutPacketsMeter`. -/
def propHashOutPacketsMeter : Meter := ⟨Category.propHash, Direction.Out, Quantity.Packets⟩
/-- The meter `propHashOutTrafficMeter`. -/
def propHashOutTrafficMeter : Meter := ⟨Category.propHash, Direction.Out, Quantity.Traffic⟩
/-- The meter `propBlockInPacketsMeter`. -/
def propBlockInPacketsMeter : Meter := ⟨Category.propBlock, Direction.In, Quantity.Packets⟩
/-- The meter `propBlockInTrafficMeter`. -/
def propBlockInTrafficMeter : Meter := ⟨Category.propBlock, Direction.In, Quantity.Traffic⟩
/-- The meter `propBlockOutPacketsMeter`. -/
def propBlockOutPacketsMeter : Meter := ⟨Category.propBlock, Direction.Out, Quantity.Packets⟩
/-- The meter `propBlockOutTrafficMeter`. -/
def propBlockOutTrafficMeter : Meter := ⟨Category.propBlock, Direction.Out, Quantity.Traffic⟩
/-- The meter `reqHeaderInPacketsMeter`. -/
def reqHeaderInPacketsMeter : Meter := ⟨Category.reqHeader, Direction.In, Quantity.Packets⟩
/-- The meter `reqHeaderInTrafficMeter`. -/
def reqHeaderInTrafficMeter : Meter := ⟨Category.reqHeader, Direction.In, Quantity.Traffic⟩
/-- The meter `reqHeaderOutPacketsMeter`. -/
def reqHeaderOutPacketsMeter : Meter := ⟨Category.reqHeader, Direction.Out, Quantity.Packets⟩
/-- The meter `reqHeaderOutTrafficMeter`. -/
def reqHeaderOutTrafficMeter : Meter := ⟨Category.reqHeader, Direction.Out, Quantity.Traffic⟩
/-- The meter `reqBodyInPacketsMeter`. -/
def reqBodyInPacketsMeter : Meter := ⟨Category.reqBody, Direction.In, Quantity.Packets⟩
/-- The meter `reqBodyInTrafficMeter`. -/
def reqBodyInTrafficMeter : Meter := ⟨Category.reqBody, Direction.In, Quantity.Traffic⟩
/-- The meter `reqBodyOutPacketsMeter`. -/
def reqBodyOutPacketsMeter : Meter := ⟨Category.reqBody, Direction.Out, Quantity.Packets⟩
/-- The meter `reqBodyOutTrafficMeter`. -/
def reqBodyOutTrafficMeter : Meter := ⟨Category.reqBody, Direction.Out, Quantity.Traffic⟩
/-- The meter `reqStateInPacketsMeter`. -/
def reqStateInPacketsMeter : Meter := ⟨Category.reqState, Direction.In, Quantity.Packets⟩
/-- The meter `reqStateInTrafficMeter`. -/
def reqStateInTrafficMeter : Meter := ⟨Category.reqState, Direction.In, Quantity.Traffic⟩
/-- The meter `reqStateOutPacketsMeter`. -/
def reqStateOutPacketsMeter : Meter := ⟨Category.reqState, Direction.Out, Quantity.Packets⟩
/-- The meter `reqStateOutTrafficMeter`. -/
def reqStateOutTrafficMeter : Meter := ⟨Category.reqState, Direction.Out, Quantity.Traffic⟩
/-- The meter `reqReceiptInPacketsMeter`. -/
def reqReceiptInPacketsMeter : Meter := ⟨Category.reqReceipt, Direction.In, Quantity.Packets⟩
/-- The meter `reqReceiptInTrafficMeter`. -/
def reqReceiptInTrafficMeter : Meter := ⟨Category.reqReceipt, Direction.In, Quantity.Traffic⟩
/-- The meter `reqReceiptOutPacketsMeter`. -/
def reqReceiptOutPacketsMeter : Meter := ⟨Category.reqReceipt, Direction.Out, Quantity.Packets⟩
/-- The meter `reqReceiptOutTrafficMeter`. -/
def reqReceiptOutTrafficMeter : Meter := ⟨Category.reqReceipt, Direction.Out, Quantity.Traffic⟩
/-- The meter `miscInPacketsMeter`. -/
def miscInPacketsMeter : Meter := ⟨Category.misc, Direction.In, Quantity.Packets⟩
/-- The meter `miscInTrafficMeter`. -/
def miscInTrafficMeter : Meter := ⟨Category.misc, Direction.In, Quantity.Traffic⟩
/-- The meter `miscOutPacketsMeter`. -/
def miscOutPacketsMeter : Meter := ⟨Category.misc, Direction.Out, Quantity.Packets⟩
/-- The meter `miscOutTrafficMeter`. -/
def miscOutTrafficMeter : Meter := ⟨Category.misc, Direction.Out, Quantity.Traffic⟩

/-- A call `meter.Mark(n)`. -/
structure Mark where
  meter : Meter
  n : Int
  deriving DecidableEq, Repr

/-- The count of a meter after the calls of `marks`: the sum of what it was marked by. -/
def count (marks : List Mark) (m : Meter) : Int :=
  ((marks.filter fun k => k.meter = m).map fun k => k.n).sum

/-- The sum of the counts of all meters of one direction and quantity, for instance of
all inbound packets meters. -/
def total (marks : List Mark) (d : Direction) (q : Quantity) : Int :=
  (Category.all.map fun c => count marks ⟨c, d, q⟩).sum

/-- A message `p2p.Msg`: its code (`uint64`), its size (`uint32`) and its payload. -/
structure Msg where
  Code : Nat
  Size : Nat
  Payload : List Nat
  deriving DecidableEq, Repr

/-- The constants of `protocol.go` that `metrics.go` compares against: the protocol
version `haa63` and the message codes.  The file is not part of the source tree, so they
are parameters. -/
structure Protocol where
  haa63 : Int
  NewBlockHashesMsg : Nat
  TxMsg : Nat
  BlockHeadersMsg : Nat
  BlockBodiesMsg : Nat
  NewBlockMsg : Nat
  NodeDataMsg : Nat
  ReceiptsMsg : Nat
  deriving DecidableEq, Repr

/-- The wrapper `meteredMsgReadWriter`: the protocol version that selects the meters.
The wrapped stream is given to `ReadMsg` and `WriteMsg` by what it returns. -/
structure meteredMsgReadWriter where
  version : Int
  deriving DecidableEq, Repr

/-- What `newMeteredMsgWriter` returns: the stream it was given, or a metering wrapper
around it. -/
inductive MsgReadWriter where
  | original
  | metered (rw : meteredMsgReadWriter)
  deriving DecidableEq, Repr

/-- Source: `func newMeteredMsgWriter(rw p2p.MsgReadWriter) p2p.MsgReadWriter`;
`Enabled` is `metrics.Enabled`.  The wrapper is built with the zero version. -/
def newMeteredMsgWriter (Enabled : Bool) : MsgReadWriter :=
  if !Enabled then MsgReadWriter.original
  else MsgReadWriter.metered { version := 0 }

/-- Source: `func (rw *meteredMsgReadWriter) Init(version int)`. -/
def meteredMsgReadWriter.Init (_rw : meteredMsgReadWriter) (version : Int) :
    meteredMsgReadWriter :=
  { version := version }

/-- The `switch` of `ReadMsg`: the inbound packets and traffic meter picked for a message
code, starting from the `misc` meters; the first case that matches decides. -/
def inMeters (pc : Protocol) (version : Int) (Code : Nat) : Meter × Meter :=
  if Code = pc.BlockHeadersMsg then (reqHeaderInPacketsMeter, reqHeaderInTrafficMeter)
  else if Code = pc.BlockBodiesMsg then (reqBodyInPacketsMeter, reqBodyInTrafficMeter)
  else if version ≥ pc.haa63 ∧ Code = pc.NodeDataMsg then
    (reqStateInPacketsMeter, reqStateInTrafficMeter)
  else if version ≥ pc.haa63 ∧ Code = pc.ReceiptsMsg then
    (reqReceiptInPacketsMeter, reqReceiptInTrafficMeter)
  else if Code = pc.NewBlockHashesMsg then (propHashInPacketsMeter, propHashInTrafficMeter)
  else if Code = pc.NewBlockMsg then (propBlockInPacketsMeter, propBlockInTrafficMeter)
  else if Code = pc.TxMsg then (propTxnInPacketsMeter, propTxnInTrafficMeter)
  else (miscInPacketsMeter, miscInTrafficMeter)

/-- The `switch` of `WriteMsg`: the outbound packets and traffic meter picked for a
message code, starting from the `misc` meters; the first case that matches decides. -/
def outMeters (pc : Protocol) (version : Int) (Code : Nat) : Meter × Meter :=
  if Code = pc.BlockHeadersMsg then (reqHeaderOutPacketsMeter, reqHeaderOutTrafficMeter)
  else if Code = pc.BlockBodiesMsg then (reqBodyOutPacketsMeter, reqBodyOutTrafficMeter)
  else if version ≥ pc.haa63 ∧ Code = pc.NodeDataMsg then
    (reqStateOutPacketsMeter, reqStateOutTrafficMeter)
  else if version ≥ pc.haa63 ∧ Code = pc.ReceiptsMsg then
    (reqReceiptOutPacketsMeter, reqReceiptOutTrafficMeter)
  else if Code = pc.NewBlockHashesMsg then (propHashOutPacketsMeter, propHashOutTrafficMeter)
  else if Code = pc.NewBlockMsg then (propBlockOutPacketsMeter, propBlockOutTrafficMeter)
  else if Code = pc.TxMsg then (propTxnOutPacketsMeter, propTxnOutTrafficMeter)
  else (miscOutPacketsMeter, miscOutTrafficMeter)

/-- Source: `func (rw *meteredMsgReadWriter) ReadMsg() (p2p.Msg, error)`.  `wrapped` is
what `rw.MsgReadWriter.ReadMsg()` returns; the result is what `ReadMsg` returns and the
`Mark` calls it makes, in order. -/
def meteredMsgReadWriter.ReadMsg (pc : Protocol) (rw : meteredMsgReadWriter)
    (wrapped : Msg × Option Err) : (Msg × Option Err) × List Mark :=
  let (msg, err) := wrapped
  match err with
  | some e => ((msg, some e), [])
  | none =>
    let (packets, traffic) := inMeters pc rw.version msg.Code
    ((msg, err), [⟨packets, 1⟩, ⟨traffic, (msg.Size : Int)⟩])

/-- Source: `func (rw *meteredMsgReadWriter) WriteMsg(msg p2p.Msg) error`.  `wrapped` is
what `rw.MsgReadWriter.WriteMsg(msg)` returns; the result is what `WriteMsg` returns and
the `Mark` calls it makes, in order. -/
def meteredMsgReadWriter.WriteMsg (pc : Protocol) (rw : meteredMsgReadWriter) (msg : Msg)
    (wrapped : Option Err) : Option Err × List Mark :=
  let (packets, traffic) := outMeters pc rw.version msg.Code
  (wrapped, [⟨packets, 1⟩, ⟨traffic, (msg.Size : Int)⟩])

/-- The category of meters a message code falls in for a protocol version: the case of
the `switch` of `ReadMsg` and `WriteMsg` that matches first. -/
def classify (pc : Protocol) (version : Int) (Code : Nat) : Category :=
  if Code = pc.BlockHeadersMsg then Category.reqHeader
  else if Code = pc.BlockBodiesMsg then Category.reqBody
  else if version ≥ pc.haa63 ∧ Code = pc.NodeDataMsg then Category.reqState
  else if version ≥ pc.haa63 ∧ Code = pc.ReceiptsMsg then Category.reqReceipt
  else if Code = pc.NewBlockHashesMsg then Category.propHash
  else if Code = pc.NewBlockMsg then Category.propBlock
  else if Code = pc.TxMsg then Category.propTxn
  else Category.misc

/-- A call on a metered stream: `Init(version)`, `ReadMsg()` together with what the
wrapped stream returns, or `WriteMsg(msg)` together with what the wrapped stream
returns. -/
inductive StreamCall where
  | Init (version : Int)
  | ReadMsg (wrapped : Msg × Option Err)
  | WriteMsg (msg : Msg) (wrapped : Option Err)
  deriving DecidableEq, Repr

/-- The wrapper and the `Mark` calls made so far (most recent last) after one more call
on the stream. -/
def streamStep (pc : Protocol) (st : meteredMsgReadWriter × List Mark) :
    StreamCall → meteredMsgReadWriter × List Mark
  | StreamCall.Init version => (st.1.Init version, st.2)
  | StreamCall.ReadMsg wrapped => (st.1, st.2 ++ (st.1.ReadMsg pc wrapped).2)
  | StreamCall.WriteMsg msg wrapped => (st.1, st.2 ++ (st.1.WriteMsg pc msg wrapped).2)

/-- The wrapper and the `Mark` calls made after a sequence of calls on the stream. -/
def streamRun (pc : Protocol) (st : meteredMsgReadWriter × List Mark)
    (calls : List StreamCall) : meteredMsgReadWriter × List Mark :=
  calls.foldl (streamStep pc) st

/-- The messages read successfully by a sequence of calls. -/
def successfulReads : List StreamCall → List Msg
  | [] => []
  | StreamCall.ReadMsg (msg, none) :: calls => msg :: successfulReads calls
  | _ :: calls => successfulReads calls

/-- The messages handed to `WriteMsg` by a sequence of calls. -/
def writes : List StreamCall → List Msg
  | [] => []
  | StreamCall.WriteMsg msg _ :: calls => msg :: writes calls
  | _ :: calls => writes calls

end haa

/-! ## The on-demand retrieval core

`les/backend.go` wires `newRequestDistributor`, `newServerPool`, `newRetrieveManager`,
`NewChtIndexer` and `NewBloomTrieIndexer` together, but the files that define them are not
part of the source tree.  The definitions of this section follow the specification
(sections 3 and 4) instead. -/

namespace Odr

/-- Modelled from the spec: the identifier (address) of a peer of the missing server
pool and request distributor. -/
abbrev PeerID := Nat

/-- Modelled from the spec: the raw answer of a peer to a request of the missing retrieve
manager, a byte string. -/
abbrev Payload := List Nat

/-- Modelled from the spec: a commitment, the hash or trie root the missing chain indexer
derives for a section and the missing retrieve manager validates against. -/
abbrev Commitment := Nat

/-! ### ServerPool (specification 4.2) -/

/-- Modelled from the spec: the tunable constants of the ServerPool score model, whose
code (`newServerPool`) is missing.  `alpha` is the weight of the newest interaction in
the exponential moving average, `floor` the score floor, `heavyPenalty` the large
negative reward, `lightPenalty` the reward of an idle or graceful disconnect, and
`successReward` the positive reward of a verified response as a function of its
latency. -/
structure ScoreParams where
  alpha : ℚ
  floor : ℚ
  heavyPenalty : ℚ
  lightPenalty : ℚ
  successReward : Nat → ℚ

/-- Modelled from the spec: when the constants of the missing score model are
well-formed.  The weight is a proper averaging weight, and the reward of a failed or
invalid response is negative and within the reward range `[-1, +1]`.  The specification
does not relate that reward to the floor. -/
def ScoreParams.valid (p : ScoreParams) : Prop :=
  0 < p.alpha ∧ p.alpha ≤ 1 ∧ -1 ≤ p.heavyPenalty ∧ p.heavyPenalty < 0

instance (p : ScoreParams) : Decidable p.valid := by
  unfold ScoreParams.valid; infer_instance

/-- Modelled from the spec: the PoolEntry of the missing server pool, persisted per
candidate address: success and failure counters, the decayed quality score, the
last-seen timestamp, the time of the most recent successful use, whether the peer is
connected, and the rolling estimate of its response latency. -/
structure PoolEntry where
  address : PeerID
  successes : Nat
  failures : Nat
  score : ℚ
  lastSeen : Nat
  lastSuccess : Nat
  connected : Bool
  latency : Nat
  deriving DecidableEq, Repr

/-- Modelled from the spec: the interactions the missing server pool scores.  A verified
response (with its latency), an invalid proof, a request timeout, a disconnect for
protocol violation or bad data, an idle or graceful disconnect, and a candidate that
never connected. -/
inductive Interaction where
  | verified (latency : Nat)
  | invalidProof
  | timeout
  | protocolViolation
  | graceful
  | neverConnected
  deriving DecidableEq, Repr

/-- Modelled from the spec: the per-interaction reward of the missing score model;
`none` is the neutral outcome, which leaves the score alone. -/
def reward (p : ScoreParams) : Interaction → Option ℚ
  | Interaction.verified latency => some (p.successReward latency)
  | Interaction.invalidProof => some p.heavyPenalty
  | Interaction.timeout => some p.heavyPenalty
  | Interaction.protocolViolation => some p.heavyPenalty
  | Interaction.graceful => some p.lightPenalty
  | Interaction.neverConnected => none

/-- Modelled from the spec: one step of the missing score model, the exponential moving
average of the rewards, never below the floor. -/
def updateScore (p : ScoreParams) (score r : ℚ) : ℚ :=
  max p.floor ((1 - p.alpha) * score + p.alpha * r)

/-- Modelled from the spec: the update of a PoolEntry of the missing server pool on an
interaction at time `now`. -/
def PoolEntry.record (p : ScoreParams) (now : Nat) (e : PoolEntry) (i : Interaction) :
    PoolEntry :=
  let score :=
    match reward p i with
    | some r => updateScore p e.score r
    | none => e.score
  match i with
  | Interaction.verified latency =>
    { e with score := score, successes := e.successes + 1, lastSeen := now,
             lastSuccess := now, latency := (e.latency + latency) / 2 }
  | Interaction.invalidProof =>
    { e with score := score, failures := e.failures + 1, lastSeen := now }
  | Interaction.timeout =>
    { e with score := score, failures := e.failures + 1, lastSeen := now }
  | Interaction.protocolViolation =>
    { e with score := score, failures := e.failures + 1, lastSeen := now,
             connected := false }
  | Interaction.graceful =>
    { e with score := score, lastSeen := now, connected := false }
  | Interaction.neverConnected => { e with score := score, connected := false }

/-- Modelled from the spec: the missing server pool records an interaction with the
peer at `peer`; other entries are untouched. -/
def recordAt (p : ScoreParams) (now : Nat) (pool : List PoolEntry) (peer : PeerID)
    (i : Interaction) : List PoolEntry :=
  pool.map fun e => if e.address = peer then e.record p now i else e

/-- Modelled from the spec: the order `selectPeer` of the missing server pool ranks
by.  Higher score first, ties broken by the most recent successful use. -/
def better (a b : PoolEntry) : Bool :=
  decide (a.score > b.score) ||
    (decide (a.score = b.score) && decide (a.lastSuccess > b.lastSuccess))

/-- Modelled from the spec: the best entry of a list of candidates of the missing
server pool, none for the empty list. -/
def best : List PoolEntry → Option PoolEntry
  | [] => none
  | e :: es =>
    match best es with
    | none => some e
    | some b => if better b e then some b else some e

/-- Modelled from the spec: `selectPeer(excluding)` of the missing server pool.  The
highest-scoring connected peer not in the exclusion set, or none; it never blocks. -/
def selectPeer (pool : List PoolEntry) (excluding : List PeerID) : Option PeerID :=
  (best (pool.filter fun e => e.connected && !excluding.contains e.address)).map
    fun e => e.address

/-! ### RequestDistributor (specification 4.3) -/

/-- Modelled from the spec: an InFlight entry of the missing request distributor, which
binds a request to the chosen peer and a deadline. -/
structure InFlight where
  request : Nat
  peer : PeerID
  deadline : Nat
  deriving DecidableEq, Repr

/-- Modelled from the spec: the configuration of the missing request distributor.  The
bound on attempts per request, the bounds of the deadline timer, and the eligibility
predicate of each request (capability and protocol version of the peer). -/
structure DistParams where
  score : ScoreParams
  maxAttempts : Nat
  minTimeout : Nat
  maxTimeout : Nat
  eligible : Nat → PoolEntry → Bool

/-- Modelled from the spec: the state of the missing request distributor.  The server
pool it selects from, the table of InFlight entries, the peers known to have failed
each request, the requests issued so far, the requests that ended in the terminal
failure outcome, the monotonic clock, and the log of every dispatch made (request and
chosen peer, most recent first). -/
structure Distributor where
  pool : List PoolEntry
  inflight : List InFlight
  failed : List (Nat × PeerID)
  issued : List Nat
  terminal : List Nat
  now : Nat
  tried : List (Nat × PeerID)
  deriving DecidableEq, Repr

/-- Modelled from the spec: the initial state of the missing request distributor over
a pool; nothing is in flight and nothing was dispatched. -/
def Distributor.init (pool : List PoolEntry) : Distributor :=
  { pool := pool, inflight := [], failed := [], issued := [], terminal := [], now := 0,
    tried := [] }

/-- The second components of the pairs of `l` whose first component is `r`. -/
def peersOf (l : List (Nat × PeerID)) (r : Nat) : List PeerID :=
  (l.filter fun q => q.1 = r).map fun q => q.2

/-- Modelled from the spec: the peers known to have already failed request `r` in the
missing request distributor. -/
def failedPeers (d : Distributor) (r : Nat) : List PeerID := peersOf d.failed r

/-- Modelled from the spec: the peers the missing request distributor has dispatched
request `r` to, from its dispatch log. -/
def triedPeers (d : Distributor) (r : Nat) : List PeerID := peersOf d.tried r

/-- Modelled from the spec: the InFlight entries of request `r` in the table of the
missing request distributor. -/
def entriesOf (d : Distributor) (r : Nat) : List InFlight :=
  d.inflight.filter fun e => e.request = r

/-- Modelled from the spec: the InFlight entry of request `r` in the missing request
distributor, if any. -/
def entryOf (d : Distributor) (r : Nat) : Option InFlight :=
  d.inflight.find? fun e => e.request = r

/-- Modelled from the spec: removal of the InFlight entries of request `r` from the
table of the missing request distributor. -/
def removeRequest (r : Nat) (table : List InFlight) : List InFlight :=
  table.filter fun e => e.request ≠ r

/-- Modelled from the spec: the deadline of the missing request distributor, sized from
the rolling latency estimate of the peer and bounded by the min and max constants. -/
def deadlineFor (dp : DistParams) (d : Distributor) (peer : PeerID) : Nat :=
  let estimate :=
    match d.pool.find? fun e => e.address = peer with
    | some e => 2 * e.latency
    | none => dp.maxTimeout
  d.now + max dp.minTimeout (min dp.maxTimeout estimate)

/-- Modelled from the spec: the dispatch of request `r` by the missing request
distributor.  Once the bound on attempts is exhausted, or when no eligible connected
peer that has not failed this request is left, the request ends in the terminal failure
outcome; otherwise the new InFlight entry replaces whatever entry the request had, and
the dispatch is logged. -/
def dispatch (dp : DistParams) (d : Distributor) (r : Nat) : Distributor :=
  let excluding := failedPeers d r
  if excluding.length ≥ dp.maxAttempts then
    { d with inflight := removeRequest r d.inflight, terminal := r :: d.terminal }
  else
    match selectPeer (d.pool.filter (dp.eligible r)) excluding with
    | none => { d with inflight := removeRequest r d.inflight, terminal := r :: d.terminal }
    | some peer =>
      { d with inflight := ⟨r, peer, deadlineFor dp d peer⟩ :: removeRequest r d.inflight,
               tried := (r, peer) :: d.tried }

/-- Modelled from the spec: what the missing request distributor does when the peer of
the InFlight entry `e` fails its request (timeout, invalid answer, disconnect).  The
peer is penalized, excluded for the remaining attempts of this request, and the request
is redistributed. -/
def failAndRedistribute (dp : DistParams) (i : Interaction) (d : Distributor)
    (e : InFlight) : Distributor :=
  dispatch dp
    { d with pool := recordAt dp.score d.now d.pool e.peer i,
             failed := (e.request, e.peer) :: d.failed }
    e.request

/-- Modelled from the spec: the missing request distributor fails the InFlight entry of
request `r`, provided there is one and it passes `guard`. -/
def failEntry (dp : DistParams) (i : Interaction) (guard : InFlight → Bool)
    (d : Distributor) (r : Nat) : Distributor :=
  match entryOf d r with
  | none => d
  | some e => if guard e then failAndRedistribute dp i d e else d

/-- Modelled from the spec: the events the missing request distributor reacts to. -/
inductive Event where
  /-- The owner hands request `request` to `distribute`. -/
  | distribute (request : Nat)
  /-- The peer of the entry of `request` answered and the answer was verified. -/
  | verified (request : Nat) (latency : Nat)
  /-- The peer of the entry of `request` answered and validation failed. -/
  | invalid (request : Nat)
  /-- The deadline timer of the entry of `request` fired. -/
  | timeout (request : Nat)
  /-- The transport reports that `peer` disconnected. -/
  | disconnect (peer : PeerID)
  /-- The owner withdraws `request`. -/
  | withdraw (request : Nat)
  /-- The monotonic clock advances. -/
  | advance (dt : Nat)
  deriving DecidableEq, Repr

/-- Modelled from the spec: one transition of the missing request distributor.
A request is issued once.  A verified answer resolves the request and rewards the peer.
An invalid answer, an expired deadline and the disconnect of the peer all fail the
entry and redistribute the request.  A withdrawal removes the entry, after which a late
answer finds no entry and changes nothing. -/
def step (dp : DistParams) (d : Distributor) : Event → Distributor
  | Event.distribute r =>
    if r ∈ d.issued then d else dispatch dp { d with issued := r :: d.issued } r
  | Event.verified r latency =>
    match entryOf d r with
    | none => d
    | some e =>
      { d with inflight := removeRequest r d.inflight,
               pool := recordAt dp.score d.now d.pool e.peer (Interaction.verified latency) }
  | Event.invalid r => failEntry dp Interaction.invalidProof (fun _ => true) d r
  | Event.timeout r =>
    failEntry dp Interaction.timeout (fun e => decide (e.deadline ≤ d.now)) d r
  | Event.disconnect peer =>
    let affected := (d.inflight.filter fun e => e.peer = peer).map fun e => e.request
    let d := { d with pool := d.pool.map fun e =>
                 if e.address = peer then { e with connected := false } else e }
    affected.foldl (failEntry dp Interaction.timeout fun e => decide (e.peer = peer)) d
  | Event.withdraw r => { d with inflight := removeRequest r d.inflight }
  | Event.advance dt => { d with now := d.now + dt }

/-- Modelled from the spec: the state the missing request distributor reaches from `d`
through a sequence of events. -/
def run (dp : DistParams) (d : Distributor) (events : List Event) : Distributor :=
  events.foldl (step dp) d

/-- The invariant of the distributor states.  At most one InFlight entry per request;
the peers a request was dispatched to are pairwise distinct and at most `maxAttempts`;
every peer a request in flight was dispatched to is the one it is in flight on or has
failed it; a request that was never issued was never dispatched; requests in flight
were issued; and the dispatch log holds every peer a request is in flight on or was
failed by. -/
structure DistInv (dp : DistParams) (d : Distributor) : Prop where
  inflightNodup : (d.inflight.map fun e => e.request).Nodup
  triedNodup : ∀ r, (triedPeers d r).Nodup
  triedBound : ∀ r, (triedPeers d r).length ≤ dp.maxAttempts
  triedCovered : ∀ e ∈ d.inflight, ∀ p ∈ triedPeers d e.request,
    p = e.peer ∨ p ∈ failedPeers d e.request
  fresh : ∀ r, r ∉ d.issued → triedPeers d r = []
  inflightIssued : ∀ e ∈ d.inflight, e.request ∈ d.issued
  inflightLogged : ∀ e ∈ d.inflight, e.peer ∈ triedPeers d e.request
  failedLogged : ∀ q ∈ d.failed, q.2 ∈ triedPeers d q.1

/-! ### ChainIndexer (specification 4.1) -/

/-- Modelled from the spec: a section of the missing chain indexer.  The derived
commitment, the known flag (section fully processed), and the hash of the last header
processed. -/
structure Section where
  commitment : Commitment
  known : Bool
  lastHeader : Nat
  deriving DecidableEq, Repr

/-- Modelled from the spec: the state of the missing chain indexer.  Section `n` covers
the blocks `n * sectionSize` up to `(n + 1) * sectionSize - 1`; `head` is the latest
head it was notified of (notifications are coalesced); `sections` is the durably
recorded section state, by section index. -/
structure ChainIndexer where
  sectionSize : Nat
  confirmationDepth : Nat
  head : Nat
  sections : List Section
  deriving DecidableEq, Repr

/-- Modelled from the spec: `sectionHead(sectionIndex) -> commitment, known` of the
missing chain indexer; not known for unprocessed or invalidated sections. -/
def sectionHead (ix : ChainIndexer) (sectionIndex : Nat) : Commitment × Bool :=
  match ix.sections.get? sectionIndex with
  | some s => if s.known then (s.commitment, true) else (0, false)
  | none => (0, false)

/-- Modelled from the spec: the last block of section `n` of the missing chain
indexer. -/
def sectionEnd (ix : ChainIndexer) (n : Nat) : Nat := (n + 1) * ix.sectionSize - 1

/-- Modelled from the spec: whether the chain has advanced `confirmationDepth` blocks
past the end of section `n`, the condition of the missing chain indexer to begin
processing it. -/
def confirmed (ix : ChainIndexer) (n : Nat) : Bool :=
  decide (sectionEnd ix n + ix.confirmationDepth ≤ ix.head)

/-- Modelled from the spec: marks every section with index at least `k` unknown, as the
missing chain indexer does on a reorg. -/
def invalidateFrom : Nat → List Section → List Section
  | _, [] => []
  | 0, s :: ss => { s with known := false } :: invalidateFrom 0 ss
  | k + 1, s :: ss => s :: invalidateFrom k ss

/-- Modelled from the spec: whether the section state `s`, stored at index `i` by the
missing chain indexer, still matches the canonical chain `headerAt`: the header of the
canonical chain at the last block of the section is the last-processed header of the
section (specification 3). -/
def stillValid (headerAt : Nat → Option Nat) (sectionSize : Nat) (i : Nat) (s : Section) :
    Bool :=
  headerAt ((i + 1) * sectionSize - 1) == some s.lastHeader

/-- Modelled from the spec: the number of sections at the start of `ss` that still match
the canonical chain, where `ss` holds the sections of the missing chain indexer from
index `i` on; the largest still-valid run of sections. -/
def validSections (headerAt : Nat → Option Nat) (sectionSize : Nat) :
    Nat → List Section → Nat
  | _, [] => 0
  | i, s :: ss =>
    if stillValid headerAt sectionSize i s then
      validSections headerAt sectionSize (i + 1) ss + 1
    else 0

/-- Modelled from the spec: `newHead(head, reorg)` of the missing chain indexer, which
is notified of the new chain head.  With `reorg` it compares the last-processed header
of its sections with the canonical chain `headerAt` and invalidates every section after
the largest run of sections that still match.  Processing is resumed by the background
worker (`processNext`). -/
def newHead (headerAt : Nat → Option Nat) (ix : ChainIndexer) (head : Nat) (reorg : Bool) :
    ChainIndexer :=
  if reorg then
    { ix with
      head := head
      sections :=
        invalidateFrom (validSections headerAt ix.sectionSize 0 ix.sections) ix.sections }
  else
    { ix with head := head }

/-- Modelled from the spec: the index of the first section of the missing chain indexer
that is not known; processing is sequential, so this is the section processed next. -/
def nextSection : List Section → Nat
  | [] => 0
  | s :: ss => if s.known then nextSection ss + 1 else 0

/-- Modelled from the spec: the headers of the blocks `start, ..., start + len - 1`
from the canonical chain reader `headerAt`, none if one of them is missing. -/
def readHeaders (headerAt : Nat → Option Nat) (start : Nat) : Nat → Option (List Nat)
  | 0 => some []
  | len + 1 =>
    match headerAt start, readHeaders headerAt (start + 1) len with
    | some h, some hs => some (h :: hs)
    | _, _ => none

/-- Modelled from the spec: stores section state at index `n` of the section list of
the missing chain indexer, replacing the entry there or appending at the end. -/
def setSection : List Section → Nat → Section → List Section
  | [], _, s => [s]
  | _ :: ss, 0, s => s :: ss
  | t :: ss, n + 1, s => t :: setSection ss n s

/-- Modelled from the spec: one run of the background worker of the missing chain
indexer.  It processes the next section if the head is `confirmationDepth` blocks past
its end: the commitment is derived (`commit`) from the headers of the section and the
section is recorded as known.  A processing error (a header that cannot be read) leaves
the state as it is, to be retried. -/
def processNext (headerAt : Nat → Option Nat) (commit : List Nat → Commitment)
    (ix : ChainIndexer) : ChainIndexer :=
  let n := nextSection ix.sections
  if confirmed ix n then
    match readHeaders headerAt (n * ix.sectionSize) ix.sectionSize with
    | none => ix
    | some hs =>
      let s : Section := ⟨commit hs, true, hs.getLastD 0⟩
      { ix with sections := setSection ix.sections n s }
  else ix

/-- Modelled from the spec: `k` runs of the background worker of the missing chain
indexer. -/
def processN (headerAt : Nat → Option Nat) (commit : List Nat → Commitment) :
    Nat → ChainIndexer → ChainIndexer
  | 0, ix => ix
  | k + 1, ix => processN headerAt commit k (processNext headerAt commit ix)

/-- Modelled from the spec: what the missing chain indexer does between two reorgs: it
is notified of a new head without reorg, or its background worker runs once. -/
inductive IndexerStep where
  | head (h : Nat)
  | work
  deriving DecidableEq, Repr

/-- Modelled from the spec: one step of the missing chain indexer between two reorgs,
over the canonical chain `headerAt`. -/
def indexerStep (headerAt : Nat → Option Nat) (commit : List Nat → Commitment)
    (ix : ChainIndexer) : IndexerStep → ChainIndexer
  | IndexerStep.head h => newHead headerAt ix h false
  | IndexerStep.work => processNext headerAt commit ix

/-- Modelled from the spec: a sequence of steps of the missing chain indexer between
two reorgs. -/
def indexerRun (headerAt : Nat → Option Nat) (commit : List Nat → Commitment)
    (ix : ChainIndexer) (steps : List IndexerStep) : ChainIndexer :=
  steps.foldl (indexerStep headerAt commit) ix

/-! ### RetrieveManager (specification 4.4) -/

/-- Modelled from the spec: what the peer a request was dispatched to does. -/
inductive Reply where
  | response (payload : Payload) (latency : Nat)
  | timeout
  | disconnected
  deriving DecidableEq, Repr

/-- Modelled from the spec: the terminal failures of `retrieve`. -/
inductive Failure where
  | NotAvailable
  | IndexUnavailable
  deriving DecidableEq, Repr

/-- Modelled from the spec: the result of `retrieve` of the missing retrieve manager,
`VerifiedResult | Failure`. -/
inductive Outcome where
  | VerifiedResult (payload : Payload)
  | Failure (f : Failure)
  deriving DecidableEq, Repr

/-- Modelled from the spec: a data need handed to the missing retrieve manager, with
the identifier of the request built for it, the block height it is about, and the
validator of its kind. -/
structure Need where
  request : Nat
  height : Nat
  validator : Commitment → Payload → Bool

/-- Modelled from the spec: the source of the commitment the missing retrieve manager
validates against.  Heights below the processed frontier of the indexer take the
commitment of their section, later heights the local header of the live canonical
chain; none is the IndexUnavailable case. -/
def commitmentFor (ix : ChainIndexer) (localHeader : Nat → Option Commitment)
    (height : Nat) : Option Commitment :=
  if height < nextSection ix.sections * ix.sectionSize then
    match sectionHead ix (height / ix.sectionSize) with
    | (c, true) => some c
    | (_, false) => none
  else localHeader height

/-- Modelled from the spec: the loop of `retrieve` of the missing retrieve manager
after the first dispatch, with `attempts` attempts left.  The answer of the peer the
request is in flight on is validated against the commitment `c`; success returns the
VerifiedResult and rewards the peer, while an invalid answer, a timeout and a
disconnect go to the distributor, which penalizes and excludes the peer and redistributes.
No entry in flight means the distributor gave up: Failure(NotAvailable). -/
def retrieveLoop (dp : DistParams) (need : Need) (c : Commitment)
    (answer : PeerID → Reply) : Nat → Distributor → Outcome × Distributor
  | 0, d => (Outcome.Failure Failure.NotAvailable, d)
  | attempts + 1, d =>
    match entryOf d need.request with
    | none => (Outcome.Failure Failure.NotAvailable, d)
    | some e =>
      match answer e.peer with
      | Reply.response payload latency =>
        if need.validator c payload then
          (Outcome.VerifiedResult payload, step dp d (Event.verified need.request latency))
        else
          retrieveLoop dp need c answer attempts (step dp d (Event.invalid need.request))
      | Reply.timeout =>
        retrieveLoop dp need c answer attempts
          (step dp (step dp d (Event.advance (e.deadline - d.now)))
            (Event.timeout need.request))
      | Reply.disconnected =>
        retrieveLoop dp need c answer attempts (step dp d (Event.disconnect e.peer))

/-- Modelled from the spec: `retrieve(need) -> VerifiedResult | Failure` of the missing
retrieve manager.  The commitment is looked up once, when the call is made; `answer`
tells what each peer does with the request. -/
def retrieve (dp : DistParams) (ix : ChainIndexer) (localHeader : Nat → Option Commitment)
    (answer : PeerID → Reply) (d : Distributor) (need : Need) : Outcome × Distributor :=
  match commitmentFor ix localHeader need.height with
  | none => (Outcome.Failure Failure.IndexUnavailable, d)
  | some c =>
    retrieveLoop dp need c answer dp.maxAttempts
      (step dp d (Event.distribute need.request))

end Odr

end Haachain

/-! ## Example inputs

Concrete inputs at which the theorems below are instantiated. -/

namespace Haachain

/-- A light backend whose ODR header retrieval fails with "no suitable peers available". -/
def failingLesBackend : les.LesApiBackend :=
  { blockchain :=
      { CurrentHeader := some ⟨9, 900, 9000⟩
        GetHeaderByNumberOdr := fun _ => (none, some (Err.other "no suitable peers available"))
        GetBlockByHash := fun _ => (none, none) }
    NewState := fun h => ⟨h.Root⟩ }

/-- The values of `rpc.PendingBlockNumber` and `rpc.LatestBlockNumber` in go-ethereum. -/
def rpcNumbers : rpc.BlockNumbers := ⟨-2, -1⟩

/-- A full node backend with a current block 7 and a pending block 8. -/
def sampleHaaBackend : haa.haaApiBackend :=
  { blockchain :=
      { CurrentBlock := ⟨⟨7, 700, 7000⟩, 70⟩
        GetHeaderByNumber := fun n => if n ≤ 7 then some ⟨n, 100 * n, 1000 * n⟩ else none
        GetBlockByNumber := fun n =>
          if n ≤ 7 then some ⟨⟨n, 100 * n, 1000 * n⟩, 10 * n⟩ else none }
    miner := { PendingBlock := ⟨⟨8, 800, 8000⟩, 80⟩ } }

/-- A configuration with sync mode `mode`, light server share `serv` and `peers` light
peers. -/
def sampleConfig (mode serv peers : Int) : haa.Config :=
  { SyncMode := mode, LightServ := serv, LightPeers := peers, SkipBcVersionCheck := false,
    ExtraData := [], NetworkId := 1, GasPrice := some 18, GPODefault := none,
    haaerbase := 0 }

/-- Surroundings of `New` in which every collaborator succeeds; the sync modes are those
of go-ethereum (full 0, fast 1, light 2). -/
def sampleEnv : haa.Env :=
  { LightSync := 2
    IsValid := fun m => decide (0 ≤ m ∧ m ≤ 2)
    OpenDatabase := none
    SetupGenesisBlock := haa.GenesisResult.ok
    GetBlockChainVersion := 3
    BlockChainVersion := 3
    NewBlockChain := Except.ok sampleHaaBackend.blockchain
    NewProtocolManager := none
    minerNew := sampleHaaBackend.miner
    AccountManager := ⟨[]⟩
    defaultExtra := [1, 2, 3]
    MaximumExtraDataSize := 32 }

/-- A service with light server share `serv` and `peers` light peers. -/
def sampleService (serv peers : Int) (lesServer : Bool) : haa.haachain :=
  { config := sampleConfig 0 serv peers
    blockchain := sampleHaaBackend.blockchain
    miner := sampleHaaBackend.miner
    networkId := 1, gasPrice := some 18, haaerbase := 0, accountManager := ⟨[]⟩,
    lesServer := lesServer }

/-- Score constants: weight 1/2, floor -1/2, heavy penalty -1, light penalty -1/10, and
a success reward that shrinks with the latency. -/
def sampleScore : Odr.ScoreParams :=
  { alpha := 1 / 2, floor := -1 / 2, heavyPenalty := -1, lightPenalty := -1 / 10,
    successReward := fun latency => 1 / (1 + latency) }

/-- A connected pool entry at `address` with score `score`. -/
def samplePeer (address : Nat) (score : ℚ) : Odr.PoolEntry :=
  { address := address, successes := 0, failures := 0, score := score, lastSeen := 0,
    lastSuccess := 0, connected := true, latency := 1 }

/-- The indexer of Scenario C before any head was seen: section size 10, confirmation
depth 5. -/
def scenarioIndexer : Odr.ChainIndexer :=
  { sectionSize := 10, confirmationDepth := 5, head := 0, sections := [] }

/-- A canonical chain with blocks 0 to `top`; the header hash of block `i` is `hdr i`. -/
def chainUpTo (top : Nat) (hdr : Nat → Nat) : Nat → Option Nat :=
  fun i => if i ≤ top then some (hdr i) else none

/-- The canonical chain after a reorg with common ancestor `a` and new head `top`: the
header hash of block `h` is `100 + h` up to the common ancestor, as on the chain before
the reorg, and `200 + h` above it. -/
def reorgChain (a top : Nat) : Nat → Option Nat :=
  fun h => if h ≤ a then some (100 + h) else if h ≤ top then some (200 + h) else none

/-- An indexer with section size 10 and confirmation depth 5 that has processed the
sections 0 to 3 of a chain with head 50, on which the header hash of block `h` is
`100 + h`. -/
def indexedFour : Odr.ChainIndexer :=
  { sectionSize := 10, confirmationDepth := 5, head := 50,
    sections :=
      [⟨1045, true, 109⟩, ⟨1145, true, 119⟩, ⟨1245, true, 129⟩, ⟨1345, true, 139⟩] }

/-- Distributor configuration: at most 3 attempts, deadlines between 1 and 10, every
peer eligible for every request. -/
def sampleDist : Odr.DistParams :=
  { score := sampleScore, maxAttempts := 3, minTimeout := 1, maxTimeout := 10,
    eligible := fun _ _ => true }

/-- A pool of two connected peers: P1 with score 1 and P2 with score 0. -/
def samplePool : List Odr.PoolEntry := [samplePeer 1 1, samplePeer 2 0]

/-- A need at height 100 whose validator accepts the payloads that sum up to the
commitment. -/
def sampleNeed : Odr.Need :=
  { request := 7, height := 100, validator := fun c payload => payload.sum == c }

/-- The peers of Scenario B: P1 answers with a payload that does not match, P2 with one
that does (for the commitment 42). -/
def scenarioAnswer : Odr.PeerID → Odr.Reply :=
  fun p => if p = 1 then Odr.Reply.response [1, 2] 3 else Odr.Reply.response [40, 2] 5

/-- The constants of the protocol in go-ethereum: version 63 and the message codes of
`protocol.go`. -/
def sampleProtocol : haa.Protocol :=
  { haa63 := 63, NewBlockHashesMsg := 1, TxMsg := 2, BlockHeadersMsg := 4,
    BlockBodiesMsg := 6, NewBlockMsg := 7, NodeDataMsg := 14, ReceiptsMsg := 16 }

/-- The ethash modes in go-ethereum: normal 0, shared 1, test 2, fake 3. -/
def sampleModes : ethash.Modes := { ModeFake := 3, ModeTest := 2, ModeShared := 1 }

/-- An ethash configuration with proof-of-work mode `mode`. -/
def sampleEthash (mode : Nat) : ethash.Config :=
  { CacheDir := "ethash", CachesInMem := 2, CachesOnDisk := 3, DatasetDir := ".ethash",
    DatasetsInMem := 1, DatasetsOnDisk := 2, PowMode := mode }

/-- A service whose configured address is `address` and whose account manager holds
`wallets`. -/
def serviceWith (address : Nat) (wallets : List accounts.Wallet) : haa.haachain :=
  { sampleService 0 0 false with haaerbase := address, accountManager := ⟨wallets⟩ }

/-- A message with code `code` and size `size`. -/
def sampleMsg (code size : Nat) : haa.Msg := { Code := code, Size := size, Payload := [] }

/-- A session on a metered stream: the version is set to 63, a 100 byte block headers
message is read, a read fails, a 50 byte node data message is read, and a 10 byte
transaction message is written. -/
def sampleSession : List haa.StreamCall :=
  [haa.StreamCall.Init 63,
    haa.StreamCall.ReadMsg (sampleMsg 4 100, none),
    haa.StreamCall.ReadMsg (sampleMsg 0 0, some (Err.other "EOF")),
    haa.StreamCall.ReadMsg (sampleMsg 14 50, none),
    haa.StreamCall.WriteMsg (sampleMsg 2 10) none]

/-- Score constants with a floor below the penalty reward: weight 1/2, floor -1, heavy
penalty -1/2. -/
def loosePenaltyScore : Odr.ScoreParams :=
  { alpha := 1 / 2, floor := -1, heavyPenalty := -1 / 2, lightPenalty := -1 / 10,
    successReward := fun latency => 1 / (1 + latency) }

end Haachain

/-! ## Theorems -/

namespace Haachain

/-! ### Machine integers -/

theorem wrapInt_of_isInt (x : Int) (h : isInt x) : wrapInt x = x := by
  unfold isInt at h
  unfold wrapInt
  rw [Int.emod_eq_of_lt (by omega) (by omega)]
  omega

/-! ### `les/api_backend.go` -/

/-- C7: a retrieval failure is never swallowed by the light API backend.  Whenever
`LesApiBackend.HeaderByNumber` returns the error `e` for a block number, both
`BlockByNumber` and `StateAndHeaderByNumber` return nil results together with that same
error, and the only call either of them makes is the one `HeaderByNumber` made: neither
`GetBlock` nor `light.NewState` is invoked. -/
theorem lesBackend_header_error_propagates (c : rpc.BlockNumbers) (b : les.LesApiBackend)
    (blockNr : Int) (e : Err) (h : (les.HeaderByNumber c b blockNr).val.2 = some e) :
    (les.BlockByNumber c b blockNr).val = (none, some e) ∧
    (les.StateAndHeaderByNumber c b blockNr).val = (none, none, some e) ∧
    (les.BlockByNumber c b blockNr).calls = (les.HeaderByNumber c b blockNr).calls ∧
    (les.StateAndHeaderByNumber c b blockNr).calls = (les.HeaderByNumber c b blockNr).calls ∧
    (∀ x, les.Call.GetBlock x ∉ (les.BlockByNumber c b blockNr).calls) ∧
    (∀ x, les.Call.NewState x ∉ (les.BlockByNumber c b blockNr).calls) ∧
    (∀ x, les.Call.GetBlock x ∉ (les.StateAndHeaderByNumber c b blockNr).calls) ∧
    (∀ x, les.Call.NewState x ∉ (les.StateAndHeaderByNumber c b blockNr).calls) := by
  have hG : ∀ x, les.Call.GetBlock x ∉ (les.HeaderByNumber c b blockNr).calls := by
    intro x
    unfold les.HeaderByNumber
    split <;> simp
  have hN : ∀ x, les.Call.NewState x ∉ (les.HeaderByNumber c b blockNr).calls := by
    intro x
    unfold les.HeaderByNumber
    split <;> simp
  have hB : (les.BlockByNumber c b blockNr).val = (none, some e) ∧
      (les.BlockByNumber c b blockNr).calls = (les.HeaderByNumber c b blockNr).calls := by
    unfold les.BlockByNumber
    rcases hv : (les.HeaderByNumber c b blockNr).val with ⟨hd, er⟩
    rw [hv] at h
    simp only at h
    subst h
    cases hd <;> simp [hv]
  have hS : (les.StateAndHeaderByNumber c b blockNr).val = (none, none, some e) ∧
      (les.StateAndHeaderByNumber c b blockNr).calls =
        (les.HeaderByNumber c b blockNr).calls := by
    unfold les.StateAndHeaderByNumber
    rcases hv : (les.HeaderByNumber c b blockNr).val with ⟨hd, er⟩
    rw [hv] at h
    simp only at h
    subst h
    cases hd <;> simp [hv]
  refine ⟨hB.1, hS.1, hB.2, hS.2, ?_, ?_, ?_, ?_⟩
  · intro x; rw [hB.2]; exact hG x
  · intro x; rw [hB.2]; exact hN x
  · intro x; rw [hS.2]; exact hG x
  · intro x; rw [hS.2]; exact hN x

/-- Witness for C7: block number 5 on a backend whose header retrieval fails. -/
theorem lesBackend_header_error_propagates_witness :
    (les.HeaderByNumber ⟨-2, -1⟩ failingLesBackend 5).val.2
        = some (Err.other "no suitable peers available") ∧
      (les.BlockByNumber ⟨-2, -1⟩ failingLesBackend 5).val
        = (none, some (Err.other "no suitable peers available")) ∧
      (les.StateAndHeaderByNumber ⟨-2, -1⟩ failingLesBackend 5).val
        = (none, none, some (Err.other "no suitable peers available")) :=
  have h := lesBackend_header_error_propagates ⟨-2, -1⟩ failingLesBackend 5
    (Err.other "no suitable peers available") (by decide)
  ⟨by decide, h.1, h.2.1⟩

/-! ### `haa/api_backend.go` -/

/-- C8: on the full node backend, for `rpc.PendingBlockNumber` and
`rpc.LatestBlockNumber` the header returned by `HeaderByNumber` is exactly the header of
the block returned by `BlockByNumber` (the pending block of the miner, respectively the
current block of the chain), both with a nil error; for every other number `n`,
`HeaderByNumber` returns `blockchain.GetHeaderByNumber(uint64(n))` with a nil error. -/
theorem haaBackend_header_is_header_of_block (c : rpc.BlockNumbers) (b : haa.haaApiBackend)
    (hne : c.LatestBlockNumber ≠ c.PendingBlockNumber) :
    (haa.BlockByNumber c b c.PendingBlockNumber = (some b.miner.PendingBlock, none) ∧
      haa.HeaderByNumber c b c.PendingBlockNumber
        = (some b.miner.PendingBlock.Header, none)) ∧
    (haa.BlockByNumber c b c.LatestBlockNumber = (some b.blockchain.CurrentBlock, none) ∧
      haa.HeaderByNumber c b c.LatestBlockNumber
        = (some b.blockchain.CurrentBlock.Header, none)) ∧
    (∀ n, n = c.PendingBlockNumber ∨ n = c.LatestBlockNumber →
      (haa.HeaderByNumber c b n).1 = (haa.BlockByNumber c b n).1.map types.Block.Header ∧
      (haa.HeaderByNumber c b n).2 = none ∧ (haa.BlockByNumber c b n).2 = none) ∧
    (∀ n, n ≠ c.PendingBlockNumber → n ≠ c.LatestBlockNumber →
      haa.HeaderByNumber c b n = (b.blockchain.GetHeaderByNumber (uint64 n), none)) := by
  refine ⟨⟨?_, ?_⟩, ⟨?_, ?_⟩, ?_, ?_⟩
  · simp [haa.BlockByNumber]
  · simp [haa.HeaderByNumber]
  · simp [haa.BlockByNumber, hne]
  · simp [haa.HeaderByNumber, hne]
  · intro n hn
    rcases hn with rfl | rfl
    · simp [haa.HeaderByNumber, haa.BlockByNumber]
    · simp [haa.HeaderByNumber, haa.BlockByNumber, hne]
  · intro n h1 h2
    simp [haa.HeaderByNumber, h1, h2]

/-- Witness for C8: the go-ethereum block numbers (pending -2, latest -1) on a backend
with current block 7 and pending block 8; block number 3 is resolved by the chain. -/
theorem haaBackend_header_is_header_of_block_witness :
    rpcNumbers.LatestBlockNumber ≠ rpcNumbers.PendingBlockNumber ∧
      haa.HeaderByNumber rpcNumbers sampleHaaBackend (-2) = (some ⟨8, 800, 8000⟩, none) ∧
      haa.HeaderByNumber rpcNumbers sampleHaaBackend (-1) = (some ⟨7, 700, 7000⟩, none) ∧
      haa.HeaderByNumber rpcNumbers sampleHaaBackend 3 = (some ⟨3, 300, 3000⟩, none) :=
  have h := haaBackend_header_is_header_of_block rpcNumbers sampleHaaBackend (by decide)
  ⟨by decide, h.1.2, h.2.1.2, h.2.2.2 3 (by decide) (by decide)⟩

/-! ### `haa/backend.go` -/

/-- C9: `New` returns a nil service and a non-nil error whenever `config.SyncMode` is
`downloader.LightSync` or is not a valid sync mode, and it does so before the chain
database is opened: no call at all has been made, in particular not `CreateDB`. -/
theorem haaNew_rejects_light_and_invalid_sync_mode (env : haa.Env) (config : haa.Config)
    (h : config.SyncMode = env.LightSync ∨ env.IsValid config.SyncMode = false) :
    (haa.New env config).1 = none ∧
    (haa.New env config).2.1 ≠ none ∧
    (haa.New env config).2.2 = [] ∧
    haa.Call.CreateDB ∉ (haa.New env config).2.2 := by
  unfold haa.New
  by_cases hl : config.SyncMode = env.LightSync
  · simp [hl]
  · rcases h with h | h
    · exact absurd h hl
    · simp [hl, h]

/-- Witness for C9: sync mode 2 (light) and sync mode 7 (not a sync mode) are both
rejected, with the error of the respective guard. -/
theorem haaNew_rejects_light_and_invalid_sync_mode_witness :
    ((haa.New sampleEnv (sampleConfig 2 0 0)).1 = none ∧
        (haa.New sampleEnv (sampleConfig 2 0 0)).2.1 = some Err.lightSyncMode) ∧
      ((haa.New sampleEnv (sampleConfig 7 0 0)).1 = none ∧
        (haa.New sampleEnv (sampleConfig 7 0 0)).2.1 = some (Err.invalidSyncMode 7)) ∧
      haa.Call.CreateDB ∈ (haa.New sampleEnv (sampleConfig 1 0 0)).2.2 :=
  ⟨⟨(haaNew_rejects_light_and_invalid_sync_mode sampleEnv (sampleConfig 2 0 0)
        (Or.inl (by decide))).1, by decide⟩,
    ⟨(haaNew_rejects_light_and_invalid_sync_mode sampleEnv (sampleConfig 7 0 0)
        (Or.inr (by decide))).1, by decide⟩,
    by decide⟩

/-- Counterexample for C10: with `LightServ = 1`, `LightPeers = -2^63` and
`MaxPeers = 1` the guard `LightPeers >= MaxPeers` is false, no error is returned, and
the Go `int` subtraction `1 - (-2^63)` wraps: the protocol manager is started with
`-2^63 + 1` peers, which is neither positive nor the difference of the two numbers. -/
theorem haaStart_overflow_counterexample :
    isInt (-(2 ^ 63)) ∧ isInt 1 ∧
      (sampleService 1 (-(2 ^ 63)) false).config.LightServ > 0 ∧
      ¬ (sampleService 1 (-(2 ^ 63)) false).config.LightPeers ≥ (haa.Server.mk 1).MaxPeers ∧
      haa.Start (sampleService 1 (-(2 ^ 63)) false) ⟨1⟩
        = (none, [haa.Call.startBloomHandlers, haa.Call.NewPublicNetAPI,
                  haa.Call.protocolManagerStart (-(2 ^ 63) + 1)]) ∧
      ¬ (0 : Int) < -(2 ^ 63) + 1 ∧
      (-(2 ^ 63) + 1 : Int) ≠ 1 - -(2 ^ 63) := by
  refine ⟨by decide, by decide, by decide, by decide, ?_, by decide, by decide⟩
  decide

/-- C10, amended: `Start` with `LightServ > 0` returns the invalid peer config error if
and only if `LightPeers >= MaxPeers`, and then neither the protocol manager nor the LES
server is started.  Otherwise it returns nil and the protocol manager is started with
the Go `int` difference `MaxPeers - LightPeers`; that is exactly the difference of the
two numbers, and strictly positive, whenever the difference fits a Go `int`, in
particular whenever `LightPeers >= 0`.  With `LightServ <= 0` the protocol manager is
started with `MaxPeers` and `Start` returns nil.  In both cases the LES server is
started after the protocol manager exactly when there is one. -/
theorem haaStart_peer_budget (s : haa.haachain) (srvr : haa.Server)
    (hL : isInt s.config.LightPeers) (hM : isInt srvr.MaxPeers) :
    (s.config.LightServ > 0 →
      ((haa.Start s srvr).1
          = some (Err.invalidPeerConfig s.config.LightPeers srvr.MaxPeers)
        ↔ s.config.LightPeers ≥ srvr.MaxPeers) ∧
      ((haa.Start s srvr).1 ≠ none ↔ s.config.LightPeers ≥ srvr.MaxPeers) ∧
      (s.config.LightPeers ≥ srvr.MaxPeers →
        (haa.Start s srvr).2 = [haa.Call.startBloomHandlers, haa.Call.NewPublicNetAPI]) ∧
      (s.config.LightPeers < srvr.MaxPeers →
        haa.Start s srvr
          = (none, [haa.Call.startBloomHandlers, haa.Call.NewPublicNetAPI,
                    haa.Call.protocolManagerStart
                      (wrapInt (srvr.MaxPeers - s.config.LightPeers))]
                   ++ if s.lesServer then [haa.Call.lesServerStart] else []) ∧
        (srvr.MaxPeers - s.config.LightPeers < 2 ^ 63 →
          wrapInt (srvr.MaxPeers - s.config.LightPeers)
              = srvr.MaxPeers - s.config.LightPeers ∧
            0 < wrapInt (srvr.MaxPeers - s.config.LightPeers)) ∧
        (0 ≤ s.config.LightPeers → srvr.MaxPeers - s.config.LightPeers < 2 ^ 63))) ∧
    (s.config.LightServ ≤ 0 →
      haa.Start s srvr
        = (none, [haa.Call.startBloomHandlers, haa.Call.NewPublicNetAPI,
                  haa.Call.protocolManagerStart srvr.MaxPeers]
                 ++ if s.lesServer then [haa.Call.lesServerStart] else [])) := by
  unfold isInt at hL hM
  constructor
  · intro hserv
    by_cases hge : s.config.LightPeers ≥ srvr.MaxPeers
    · have hst : haa.Start s srvr
          = (some (Err.invalidPeerConfig s.config.LightPeers srvr.MaxPeers),
              [haa.Call.startBloomHandlers, haa.Call.NewPublicNetAPI]) := by
        simp [haa.Start, hserv, hge]
      refine ⟨by simp [hst, hge], by simp [hst, hge], fun _ => by simp [hst], ?_⟩
      intro hlt; omega
    · have hst : haa.Start s srvr
          = (none, [haa.Call.startBloomHandlers, haa.Call.NewPublicNetAPI,
                    haa.Call.protocolManagerStart
                      (wrapInt (srvr.MaxPeers - s.config.LightPeers))]
                   ++ if s.lesServer then [haa.Call.lesServerStart] else []) := by
        simp only [haa.Start, hserv, hge, if_true, if_false, haa.startNetworking]
        cases s.lesServer <;> simp
      refine ⟨by simp [hst, hge], by simp [hst, hge], fun h => absurd h hge, ?_⟩
      intro hlt
      refine ⟨hst, ?_, ?_⟩
      · intro hfit
        have hw := wrapInt_of_isInt (srvr.MaxPeers - s.config.LightPeers)
          ⟨by omega, hfit⟩
        rw [hw]
        exact ⟨rfl, by omega⟩
      · intro h0; omega
  · intro hserv
    have hn : ¬ s.config.LightServ > 0 := by omega
    simp only [haa.Start, hn, if_false, haa.startNetworking]
    cases s.lesServer <;> simp

/-- Witness for C10: 25 light peers out of 50 leave 25 peers for the protocol manager,
and the LES server is started after it. -/
theorem haaStart_peer_budget_witness :
    isInt 25 ∧ isInt 50 ∧
      haa.Start (sampleService 1 25 true) ⟨50⟩
        = (none, [haa.Call.startBloomHandlers, haa.Call.NewPublicNetAPI,
                  haa.Call.protocolManagerStart 25, haa.Call.lesServerStart]) ∧
      (haa.Start (sampleService 1 50 true) ⟨50⟩).1 = some (Err.invalidPeerConfig 50 50) :=
  have h := haaStart_peer_budget (sampleService 1 25 true) ⟨50⟩ (by decide) (by decide)
  ⟨by decide, by decide,
    ((h.1 (by decide)).2.2.2 (by decide)).1.trans (by decide),
    ((haaStart_peer_budget (sampleService 1 50 true) ⟨50⟩ (by decide) (by decide)).1
      (by decide)).1.2 (by decide)⟩

/-! ### ServerPool -/

theorem updateScore_lt_iff (p : Odr.ScoreParams) (ha : 0 < p.alpha) (s : ℚ) :
    Odr.updateScore p s p.heavyPenalty < s ↔ p.floor < s ∧ p.heavyPenalty < s := by
  unfold Odr.updateScore
  rw [max_lt_iff]
  constructor
  · rintro ⟨h1, h2⟩
    refine ⟨h1, ?_⟩
    by_contra hge
    have hge' : s ≤ p.heavyPenalty := not_lt.mp hge
    nlinarith [mul_nonneg ha.le (sub_nonneg.mpr hge')]
  · rintro ⟨h1, h2⟩
    refine ⟨h1, ?_⟩
    nlinarith [mul_pos ha (sub_pos.mpr h2)]

/-- Counterexample for C5: with weight 1/2, floor -1 and penalty reward -1/2 a peer with
score -4/5, which is above the floor, has the score -13/20 after an invalid proof: the
moving average pulls the score up toward the penalty reward. -/
theorem invalidProof_raises_low_score_counterexample :
    loosePenaltyScore.valid ∧
      loosePenaltyScore.floor < (samplePeer 1 (-4 / 5)).score ∧
      ((samplePeer 1 (-4 / 5)).record loosePenaltyScore 3 Odr.Interaction.invalidProof).score
        = -13 / 20 ∧
      ¬ ((samplePeer 1 (-4 / 5)).record loosePenaltyScore 3
            Odr.Interaction.invalidProof).score
          < (samplePeer 1 (-4 / 5)).score := by
  have hs : ((samplePeer 1 (-4 / 5)).record loosePenaltyScore 3
      Odr.Interaction.invalidProof).score = -13 / 20 := by
    simp only [Odr.PoolEntry.record, Odr.reward, Odr.updateScore, loosePenaltyScore,
      samplePeer]
    norm_num
  refine ⟨?_, ?_, hs, ?_⟩
  · norm_num [Odr.ScoreParams.valid, loosePenaltyScore]
  · norm_num [loosePenaltyScore, samplePeer]
  · rw [hs]
    norm_num [samplePeer]

/-- C5, amended (P5, score monotonic penalty; the server pool is modelled from the
specification): recording an invalid-proof response from a peer leaves its pool entry
with a strictly lower score than before exactly when the score before was above the
floor and above the reward of an invalid proof.  In particular that is so for every
score above the floor when that reward is not above the floor.  The new score is never
below the floor, and it is the score of the entry in the pool. -/
theorem invalidProof_lowers_score_above_penalty (p : Odr.ScoreParams) (hp : p.valid)
    (now : Nat) (pool : List Odr.PoolEntry) (e : Odr.PoolEntry) (he : e ∈ pool) :
    ((e.record p now Odr.Interaction.invalidProof).score < e.score ↔
      p.floor < e.score ∧ p.heavyPenalty < e.score) ∧
    (p.heavyPenalty ≤ p.floor → p.floor < e.score →
      (e.record p now Odr.Interaction.invalidProof).score < e.score) ∧
    p.floor ≤ (e.record p now Odr.Interaction.invalidProof).score ∧
    e.record p now Odr.Interaction.invalidProof
      ∈ Odr.recordAt p now pool e.address Odr.Interaction.invalidProof := by
  have hs : (e.record p now Odr.Interaction.invalidProof).score
      = Odr.updateScore p e.score p.heavyPenalty := by
    simp [Odr.PoolEntry.record, Odr.reward]
  have hiff := updateScore_lt_iff p hp.1 e.score
  refine ⟨?_, ?_, ?_, ?_⟩
  · rw [hs]; exact hiff
  · intro hpen hfloor
    rw [hs]
    exact hiff.mpr ⟨hfloor, lt_of_le_of_lt hpen hfloor⟩
  · rw [hs]; exact le_max_left _ _
  · unfold Odr.recordAt
    exact List.mem_map.mpr ⟨e, he, by simp⟩

/-- Witness for C5: with floor -1/2 and penalty reward -1 a peer with score 4/5 that
returns an invalid proof drops to a score below 4/5. -/
theorem invalidProof_lowers_score_above_penalty_witness :
    sampleScore.valid ∧ sampleScore.floor < (samplePeer 1 (4 / 5)).score ∧
      sampleScore.heavyPenalty < (samplePeer 1 (4 / 5)).score ∧
      ((samplePeer 1 (4 / 5)).record sampleScore 3 Odr.Interaction.invalidProof).score
        < (samplePeer 1 (4 / 5)).score :=
  have hv : sampleScore.valid := by
    norm_num [Odr.ScoreParams.valid, sampleScore]
  have hf : sampleScore.floor < (samplePeer 1 (4 / 5)).score := by
    norm_num [sampleScore, samplePeer]
  have hh : sampleScore.heavyPenalty < (samplePeer 1 (4 / 5)).score := by
    norm_num [sampleScore, samplePeer]
  ⟨hv, hf, hh,
    (invalidProof_lowers_score_above_penalty sampleScore hv 3
      [samplePeer 1 (4 / 5), samplePeer 2 (3 / 10)] (samplePeer 1 (4 / 5))
      (List.mem_cons_self _ _)).1.mpr ⟨hf, hh⟩⟩

/-! ### ChainIndexer -/

theorem nextSection_le_length (l : List Odr.Section) : Odr.nextSection l ≤ l.length := by
  induction l with
  | nil => simp [Odr.nextSection]
  | cons s ss ih =>
    unfold Odr.nextSection
    split
    · simp; omega
    · simp

theorem get?_setSection (l : List Odr.Section) (n : Nat) (s : Odr.Section) (i : Nat)
    (h : n ≤ l.length) :
    (Odr.setSection l n s).get? i = if i = n then some s else l.get? i := by
  induction l generalizing n i with
  | nil =>
    have hn : n = 0 := by simpa using h
    subst hn
    cases i <;> simp [Odr.setSection]
  | cons t ss ih =>
    cases n with
    | zero => cases i <;> simp [Odr.setSection]
    | succ n =>
      cases i with
      | zero => simp [Odr.setSection]
      | succ i =>
        have := ih n i (by simpa using h)
        simpa [Odr.setSection] using this

theorem get?_invalidateFrom (k : Nat) (l : List Odr.Section) (i : Nat) :
    (Odr.invalidateFrom k l).get? i
      = (l.get? i).map fun s => if k ≤ i then { s with known := false } else s := by
  induction l generalizing k i with
  | nil => cases k <;> simp [Odr.invalidateFrom]
  | cons t ss ih =>
    cases k with
    | zero =>
      cases i with
      | zero => simp [Odr.invalidateFrom]
      | succ i => simpa [Odr.invalidateFrom] using ih 0 i
    | succ k =>
      cases i with
      | zero => simp [Odr.invalidateFrom]
      | succ i => simpa [Odr.invalidateFrom] using ih k i

theorem sectionHead_known_iff (ix : Odr.ChainIndexer) (i : Nat) :
    (Odr.sectionHead ix i).2 = true ↔ ∃ s, ix.sections.get? i = some s ∧ s.known = true := by
  unfold Odr.sectionHead
  cases h : ix.sections.get? i with
  | none => simp
  | some s => cases hk : s.known <;> simp [hk]

theorem processNext_sectionSize (headerAt : Nat → Option Nat) (commit : List Nat → Nat)
    (ix : Odr.ChainIndexer) :
    (Odr.processNext headerAt commit ix).sectionSize = ix.sectionSize := by
  simp only [Odr.processNext]
  split
  · split <;> rfl
  · rfl

/-- What one run of the worker does to the section list: nothing, or it stores the
freshly derived commitment of the next section. -/
theorem processNext_sections (headerAt : Nat → Option Nat) (commit : List Nat → Nat)
    (ix : Odr.ChainIndexer) :
    (Odr.processNext headerAt commit ix).sections = ix.sections ∨
    ∃ hs, Odr.sectionEnd ix (Odr.nextSection ix.sections) + ix.confirmationDepth ≤ ix.head ∧
      Odr.readHeaders headerAt (Odr.nextSection ix.sections * ix.sectionSize) ix.sectionSize
        = some hs ∧
      (Odr.processNext headerAt commit ix).sections
        = Odr.setSection ix.sections (Odr.nextSection ix.sections)
            ⟨commit hs, true, hs.getLastD 0⟩ := by
  unfold Odr.processNext
  by_cases hc : Odr.confirmed ix (Odr.nextSection ix.sections) = true
  · cases hr : Odr.readHeaders headerAt (Odr.nextSection ix.sections * ix.sectionSize)
        ix.sectionSize with
    | none => left; simp [hc, hr]
    | some hs =>
      right
      refine ⟨hs, ?_, rfl, ?_⟩
      · simpa [Odr.confirmed] using hc
      · simp [hc, hr]
  · left; simp [hc]

/-- C6 (Scenario C; the chain indexer is modelled from the specification): the worker
processes a section only once the head is at least `confirmationDepth` blocks past the
last block of the section, and it does process the next section once that is so and the
headers can be read.  With section size 10, confirmation depth 5 and the head at block
20, after any positive number of worker runs section 0 (blocks 0-9) is processed and
known and section 1 (blocks 10-19) is not, because 19 + 5 > 20. -/
theorem confirmationDepth_gates_processing :
    (∀ (headerAt : Nat → Option Nat) (commit : List Nat → Nat) (ix : Odr.ChainIndexer)
        (n : Nat),
      (Odr.sectionHead ix n).2 = false →
      (Odr.sectionHead (Odr.processNext headerAt commit ix) n).2 = true →
        n = Odr.nextSection ix.sections ∧
        Odr.sectionEnd ix n + ix.confirmationDepth ≤ ix.head) ∧
    (∀ (headerAt : Nat → Option Nat) (commit : List Nat → Nat) (ix : Odr.ChainIndexer)
        (hs : List Nat),
      Odr.sectionEnd ix (Odr.nextSection ix.sections) + ix.confirmationDepth ≤ ix.head →
      Odr.readHeaders headerAt (Odr.nextSection ix.sections * ix.sectionSize) ix.sectionSize
        = some hs →
        Odr.sectionHead (Odr.processNext headerAt commit ix) (Odr.nextSection ix.sections)
          = (commit hs, true)) ∧
    (∀ (hdr : Nat → Nat) (commit : List Nat → Nat) (k : Nat),
      Odr.sectionHead
          (Odr.processN (chainUpTo 20 hdr) commit (k + 1)
            (Odr.newHead (chainUpTo 20 hdr) scenarioIndexer 20 false)) 0
        = (commit ((List.range 10).map hdr), true) ∧
      Odr.sectionHead
          (Odr.processN (chainUpTo 20 hdr) commit (k + 1)
            (Odr.newHead (chainUpTo 20 hdr) scenarioIndexer 20 false)) 1
        = (0, false)) ∧
    Odr.sectionEnd scenarioIndexer 0 = 9 ∧ Odr.sectionEnd scenarioIndexer 1 = 19 ∧
    19 + scenarioIndexer.confirmationDepth > 20 := by
  refine ⟨?_, ?_, ?_, by decide, by decide, by decide⟩
  · intro headerAt commit ix n hbefore hafter
    rcases processNext_sections headerAt commit ix with hsame | ⟨hs, hconf, _, hset⟩
    · have : (Odr.sectionHead (Odr.processNext headerAt commit ix) n).2
          = (Odr.sectionHead ix n).2 := by
        unfold Odr.sectionHead; rw [hsame]
      rw [this, hbefore] at hafter
      exact absurd hafter (by simp)
    · have hn : n = Odr.nextSection ix.sections := by
        by_contra hne
        have hget : (Odr.processNext headerAt commit ix).sections.get? n
            = ix.sections.get? n := by
          rw [hset, get?_setSection _ _ _ _ (nextSection_le_length _), if_neg hne]
        have : (Odr.sectionHead (Odr.processNext headerAt commit ix) n).2
            = (Odr.sectionHead ix n).2 := by
          unfold Odr.sectionHead; rw [hget]
        rw [this, hbefore] at hafter
        exact absurd hafter (by simp)
      subst hn
      exact ⟨rfl, hconf⟩
  · intro headerAt commit ix hs hconf hread
    have hc : Odr.confirmed ix (Odr.nextSection ix.sections) = true := by
      simpa [Odr.confirmed] using hconf
    have hsec : (Odr.processNext headerAt commit ix).sections
        = Odr.setSection ix.sections (Odr.nextSection ix.sections)
            ⟨commit hs, true, hs.getLastD 0⟩ := by
      simp [Odr.processNext, hc, hread]
    unfold Odr.sectionHead
    rw [hsec, get?_setSection _ _ _ _ (nextSection_le_length _)]
    simp
  · intro hdr commit k
    have h1 : Odr.processNext (chainUpTo 20 hdr) commit
          (Odr.newHead (chainUpTo 20 hdr) scenarioIndexer 20 false)
        = { sectionSize := 10, confirmationDepth := 5, head := 20,
            sections := [⟨commit ((List.range 10).map hdr), true, hdr 9⟩] } := by
      simp [Odr.processNext, Odr.newHead, scenarioIndexer, Odr.nextSection, Odr.confirmed,
        Odr.sectionEnd, Odr.readHeaders, chainUpTo, Odr.setSection, List.range,
        List.range.loop]
    have h2 : ∀ s : Odr.Section, s.known = true →
        Odr.processNext (chainUpTo 20 hdr) commit
            { sectionSize := 10, confirmationDepth := 5, head := 20, sections := [s] }
          = { sectionSize := 10, confirmationDepth := 5, head := 20, sections := [s] } := by
      intro s hk
      simp [Odr.processNext, Odr.nextSection, Odr.confirmed, Odr.sectionEnd, hk]
    have h3 : ∀ (j : Nat) (s : Odr.Section), s.known = true →
        Odr.processN (chainUpTo 20 hdr) commit j
            { sectionSize := 10, confirmationDepth := 5, head := 20, sections := [s] }
          = { sectionSize := 10, confirmationDepth := 5, head := 20, sections := [s] } := by
      intro j s hk
      induction j with
      | zero => rfl
      | succ j ih => rw [Odr.processN, h2 s hk, ih]
    rw [Odr.processN, h1, h3 k _ rfl]
    simp [Odr.sectionHead]

theorem validSections_ge (headerAt : Nat → Option Nat) (S : Nat) (ss : List Odr.Section)
    (i n : Nat) (hn : n ≤ ss.length)
    (h : ∀ j, j < n → ∀ s, ss.get? j = some s → Odr.stillValid headerAt S (i + j) s = true) :
    n ≤ Odr.validSections headerAt S i ss := by
  induction ss generalizing i n with
  | nil =>
    have h0 : n = 0 := by simpa using hn
    subst h0
    exact Nat.zero_le _
  | cons t ts ih =>
    cases n with
    | zero => omega
    | succ n =>
      have ht : Odr.stillValid headerAt S i t = true := by
        simpa using h 0 (by omega) t (by simp)
      simp only [Odr.validSections, ht, if_true]
      have hrec := ih (i + 1) n (by simpa using hn) (by
        intro j hj s hs
        have := h (j + 1) (by omega) s (by simpa using hs)
        rwa [show i + (j + 1) = i + 1 + j by omega] at this)
      omega

theorem validSections_le (headerAt : Nat → Option Nat) (S : Nat) (ss : List Odr.Section)
    (i j : Nat) (s : Odr.Section) (hget : ss.get? j = some s)
    (hbad : Odr.stillValid headerAt S (i + j) s = false) :
    Odr.validSections headerAt S i ss ≤ j := by
  induction ss generalizing i j with
  | nil => simp at hget
  | cons t ts ih =>
    cases j with
    | zero =>
      have hts : t = s := by simpa using hget
      subst hts
      have hbad' : Odr.stillValid headerAt S i t = false := by simpa using hbad
      simp [Odr.validSections, hbad']
    | succ j =>
      unfold Odr.validSections
      split
      · have := ih (i + 1) j (by simpa using hget) (by
          rwa [show i + (j + 1) = i + 1 + j by omega] at hbad)
        omega
      · omega

/-- The sections selected by `P` that are known carry the commitment derived from the
canonical chain `headerAt`: the invariant of the indexer after a reorg that invalidated
the sections selected by `P`. -/
theorem indexerRun_reprocessed (headerAt : Nat → Option Nat) (commit : List Nat → Nat)
    (P : Nat → Prop) (S : Nat) (steps : List Odr.IndexerStep) (ix : Odr.ChainIndexer)
    (hsize : ix.sectionSize = S)
    (hinv : ∀ i, P i → ∀ s, ix.sections.get? i = some s → s.known = true →
      ∃ hs, Odr.readHeaders headerAt (i * S) S = some hs ∧ s.commitment = commit hs) :
    (Odr.indexerRun headerAt commit ix steps).sectionSize = S ∧
    ∀ i, P i → ∀ s, (Odr.indexerRun headerAt commit ix steps).sections.get? i = some s →
      s.known = true →
      ∃ hs, Odr.readHeaders headerAt (i * S) S = some hs ∧ s.commitment = commit hs := by
  induction steps generalizing ix with
  | nil => exact ⟨hsize, hinv⟩
  | cons st rest ih =>
    unfold Odr.indexerRun
    rw [List.foldl_cons]
    apply ih
    · cases st with
      | head h => simpa [Odr.indexerStep, Odr.newHead] using hsize
      | work =>
        simp only [Odr.indexerStep]
        rw [processNext_sectionSize]; exact hsize
    · intro i hi s hget hk
      cases st with
      | head h =>
        have : (Odr.indexerStep headerAt commit ix (Odr.IndexerStep.head h)).sections
            = ix.sections := by
          simp [Odr.indexerStep, Odr.newHead]
        rw [this] at hget
        exact hinv i hi s hget hk
      | work =>
        simp only [Odr.indexerStep] at hget
        rcases processNext_sections headerAt commit ix with hsame | ⟨hs, _, hread, hset⟩
        · rw [hsame] at hget
          exact hinv i hi s hget hk
        · rw [hset, get?_setSection _ _ _ _ (nextSection_le_length _)] at hget
          by_cases hin : i = Odr.nextSection ix.sections
          · rw [if_pos hin] at hget
            have hs' : s = ⟨commit hs, true, hs.getLastD 0⟩ := by
              simpa using hget.symm
            subst hs'
            rw [hsize, ← hin] at hread
            exact ⟨hs, hread, rfl⟩
          · rw [if_neg hin] at hget
            exact hinv i hi s hget hk

/-- Counterexample for C4: four processed sections of size 10 and a reorg whose common
ancestor is block 29, the last block of section 2 (so it lies in section 2); the new
chain has its head at block 50 and differs from block 30 on.  After `newHead(50, true)`
section 2 is still reported as known, with its commitment: its last-processed header is
still the header of the canonical chain at block 29. -/
theorem reorg_keeps_section_of_last_block_counterexample :
    (∀ i, i < 4 → (Odr.sectionHead indexedFour i).2 = true) ∧
      2 < 4 ∧ 2 * indexedFour.sectionSize ≤ 29 ∧ 29 < (2 + 1) * indexedFour.sectionSize ∧
      (∀ h, h < 30 → reorgChain 29 50 h = some (100 + h)) ∧
      (∀ h, h < 51 → 29 < h → reorgChain 29 50 h = some (200 + h)) ∧
      Odr.sectionHead (Odr.newHead (reorgChain 29 50) indexedFour 50 true) 2 = (1245, true) ∧
      Odr.sectionHead (Odr.newHead (reorgChain 29 50) indexedFour 50 true) 3 = (0, false) := by
  decide

/-- C4, amended (P4, reorg invalidation; the chain indexer is modelled from the
specification): take an indexer whose sections below `N` were processed on a chain
`old`, and a reorg whose common ancestor `a` lies in section `K < N`, so that the
canonical chain `headerAt` keeps the blocks up to `a` and differs above.  After
`newHead(head, reorg = true)`, whatever the new head, every section above `K` is
reported as not known by `sectionHead`, and so is section `K` unless the common
ancestor is its last block; the sections below `K`, and section `K` when the common
ancestor is its last block, stay known with unchanged commitments.  An invalidated
section is reported as known again only once the worker has reprocessed it: in whatever
way head notifications and worker runs follow, if it is known then its commitment is
the one derived from the headers of the canonical chain. -/
theorem reorg_invalidates_sections (headerAt : Nat → Option Nat) (old : Nat → Nat)
    (ix : Odr.ChainIndexer) (N K a head : Nat)
    (hN : ∀ i, i < N → ∃ s, ix.sections.get? i = some s ∧ s.known = true ∧
      s.lastHeader = old (Odr.sectionEnd ix i))
    (hrest : ∀ i, N ≤ i → (Odr.sectionHead ix i).2 = false)
    (hK : K < N) (hlo : K * ix.sectionSize ≤ a) (hhi : a < (K + 1) * ix.sectionSize)
    (hsame : ∀ h, h ≤ a → headerAt h = some (old h))
    (hdiff : ∀ h, a < h → headerAt h ≠ some (old h)) :
    (∀ i, K < i → Odr.sectionHead (Odr.newHead headerAt ix head true) i = (0, false)) ∧
    (a < Odr.sectionEnd ix K →
      Odr.sectionHead (Odr.newHead headerAt ix head true) K = (0, false)) ∧
    (∀ i, i < K →
      Odr.sectionHead (Odr.newHead headerAt ix head true) i = Odr.sectionHead ix i ∧
      (Odr.sectionHead (Odr.newHead headerAt ix head true) i).2 = true) ∧
    (a = Odr.sectionEnd ix K →
      Odr.sectionHead (Odr.newHead headerAt ix head true) K = Odr.sectionHead ix K ∧
      (Odr.sectionHead (Odr.newHead headerAt ix head true) K).2 = true) ∧
    (∀ (commit : List Nat → Nat) (steps : List Odr.IndexerStep) (i : Nat),
      K < i ∨ (i = K ∧ a < Odr.sectionEnd ix K) →
      (Odr.sectionHead
          (Odr.indexerRun headerAt commit (Odr.newHead headerAt ix head true) steps) i).2
        = true →
      ∃ hs, Odr.readHeaders headerAt (i * ix.sectionSize) ix.sectionSize = some hs ∧
        Odr.sectionHead
            (Odr.indexerRun headerAt commit (Odr.newHead headerAt ix head true) steps) i
          = (commit hs, true)) := by
  have hS : 0 < ix.sectionSize := by
    rcases Nat.eq_zero_or_pos ix.sectionSize with h0 | hpos
    · rw [h0] at hhi; simp at hhi
    · exact hpos
  -- the index arithmetic
  have hend_mono : ∀ j i, j ≤ i → Odr.sectionEnd ix j ≤ Odr.sectionEnd ix i := by
    intro j i hji
    unfold Odr.sectionEnd
    have := Nat.mul_le_mul_right ix.sectionSize (show j + 1 ≤ i + 1 by omega)
    omega
  have habove : ∀ i, K < i → a < Odr.sectionEnd ix i := by
    intro i hi
    unfold Odr.sectionEnd
    have h1 := Nat.mul_le_mul_right ix.sectionSize (show K + 2 ≤ i + 1 by omega)
    have h2 : (K + 2) * ix.sectionSize = (K + 1) * ix.sectionSize + ix.sectionSize := by ring
    omega
  have hbelow : ∀ i, i < K → Odr.sectionEnd ix i ≤ a := by
    intro i hi
    unfold Odr.sectionEnd
    have h1 := Nat.mul_le_mul_right ix.sectionSize (show i + 1 ≤ K by omega)
    omega
  have hidx : ∀ i, Odr.sectionEnd ix i ≤ a → i ≤ K := by
    intro i hi
    by_contra hgt
    have := habove i (by omega)
    omega
  -- the sections after the reorg
  have hsec : (Odr.newHead headerAt ix head true).sections
      = Odr.invalidateFrom (Odr.validSections headerAt ix.sectionSize 0 ix.sections)
          ix.sections := by
    simp [Odr.newHead]
  have hsz : (Odr.newHead headerAt ix head true).sectionSize = ix.sectionSize := by
    simp [Odr.newHead]
  have hinvalid : ∀ i, a < Odr.sectionEnd ix i →
      Odr.sectionHead (Odr.newHead headerAt ix head true) i = (0, false) := by
    intro i hi
    unfold Odr.sectionHead
    rw [hsec, get?_invalidateFrom]
    by_cases hiN : i < N
    · obtain ⟨s, hget, _, hlast⟩ := hN i hiN
      have hbad : Odr.stillValid headerAt ix.sectionSize (0 + i) s = false := by
        unfold Odr.stillValid
        rw [hlast, Nat.zero_add]
        have := hdiff (Odr.sectionEnd ix i) hi
        unfold Odr.sectionEnd at this ⊢
        simpa using this
      have hle := validSections_le headerAt ix.sectionSize ix.sections 0 i s hget hbad
      rw [hget]
      simp [hle]
    · have hnk := hrest i (by omega)
      unfold Odr.sectionHead at hnk
      cases hg : ix.sections.get? i with
      | none => simp
      | some s =>
        rw [hg] at hnk
        have hk : s.known = false := by
          cases hks : s.known with
          | false => rfl
          | true => simp [hks] at hnk
        by_cases hv : Odr.validSections headerAt ix.sectionSize 0 ix.sections ≤ i
        · simp [hv]
        · simp [hv, hk]
  have hkept : ∀ i, Odr.sectionEnd ix i ≤ a →
      Odr.sectionHead (Odr.newHead headerAt ix head true) i = Odr.sectionHead ix i ∧
      (Odr.sectionHead (Odr.newHead headerAt ix head true) i).2 = true := by
    intro i hi
    have hiK := hidx i hi
    obtain ⟨s, hget, hknown, _⟩ := hN i (by omega)
    have hlen : i + 1 ≤ ix.sections.length := by
      have := List.get?_eq_some.mp hget
      obtain ⟨hlt, _⟩ := this
      omega
    have hge := validSections_ge headerAt ix.sectionSize ix.sections 0 (i + 1) hlen (by
      intro j hj t ht
      obtain ⟨t', ht', _, hlast⟩ := hN j (by omega)
      rw [ht'] at ht
      have htt : t' = t := by simpa using ht
      subst htt
      unfold Odr.stillValid
      rw [hlast, Nat.zero_add]
      have hje := hend_mono j i (by omega)
      have := hsame (Odr.sectionEnd ix j) (by omega)
      unfold Odr.sectionEnd at this ⊢
      simpa using this)
    have hnot : ¬ Odr.validSections headerAt ix.sectionSize 0 ix.sections ≤ i := by omega
    have heq : Odr.sectionHead (Odr.newHead headerAt ix head true) i
        = Odr.sectionHead ix i := by
      unfold Odr.sectionHead
      rw [hsec, get?_invalidateFrom, hget]
      simp [hnot]
    refine ⟨heq, ?_⟩
    rw [heq]
    exact (sectionHead_known_iff ix i).mpr ⟨s, hget, hknown⟩
  refine ⟨fun i hi => hinvalid i (habove i hi), hinvalid K,
    fun i hi => hkept i (hbelow i hi), fun ha => hkept K (by omega), ?_⟩
  intro commit steps i hi hknown
  have hPi : a < Odr.sectionEnd ix i := by
    rcases hi with hi | ⟨rfl, hi⟩
    · exact habove i hi
    · exact hi
  have hinv := indexerRun_reprocessed headerAt commit (fun j => a < Odr.sectionEnd ix j)
    ix.sectionSize steps (Odr.newHead headerAt ix head true) hsz (by
      intro j hj s hget hk
      have h0 := hinvalid j hj
      have hkn : (Odr.sectionHead (Odr.newHead headerAt ix head true) j).2 = true :=
        (sectionHead_known_iff _ j).mpr ⟨s, hget, hk⟩
      rw [h0] at hkn
      simp at hkn)
  obtain ⟨s, hget, hk⟩ := (sectionHead_known_iff _ i).mp hknown
  obtain ⟨hs, hread, hcommit⟩ := hinv.2 i hPi s hget hk
  refine ⟨hs, hread, ?_⟩
  unfold Odr.sectionHead
  rw [hget]
  simp [hk, hcommit]

/-- Witness for C4: four processed sections of size 10 and a reorg with common ancestor
at block 23, which lies in section 2, notified with the new head 37.  Sections 2 and 3
are reported as not known, section 1 keeps its commitment, and once the worker has run
section 2 is known again with the commitment of the new chain. -/
theorem reorg_invalidates_sections_witness :
    Odr.sectionHead (Odr.newHead (reorgChain 23 37) indexedFour 37 true) 2 = (0, false) ∧
      Odr.sectionHead (Odr.newHead (reorgChain 23 37) indexedFour 37 true) 3 = (0, false) ∧
      Odr.sectionHead (Odr.newHead (reorgChain 23 37) indexedFour 37 true) 1
        = (1145, true) ∧
      Odr.sectionHead
          (Odr.indexerRun (reorgChain 23 37) List.sum
            (Odr.newHead (reorgChain 23 37) indexedFour 37 true)
            [Odr.IndexerStep.work]) 2
        = (1845, true) :=
  have h := reorg_invalidates_sections (reorgChain 23 37) (fun h => 100 + h) indexedFour
    4 2 23 37
    (by
      intro i hi
      interval_cases i
      · exact ⟨_, rfl, rfl, rfl⟩
      · exact ⟨_, rfl, rfl, rfl⟩
      · exact ⟨_, rfl, rfl, rfl⟩
      · exact ⟨_, rfl, rfl, rfl⟩)
    (by
      intro i hi
      have hnone : indexedFour.sections.get? i = none := by
        apply List.get?_eq_none.mpr
        simpa [indexedFour] using hi
      unfold Odr.sectionHead
      rw [hnone])
    (by decide) (by decide) (by decide)
    (by
      intro h hh
      simp [reorgChain, hh])
    (by
      intro h hh
      have hn : ¬ h ≤ 23 := by omega
      simp only [reorgChain, hn, if_false]
      split
      · simp
      · simp)
  ⟨h.2.1 (by decide), h.1 3 (by decide), ((h.2.2.1 1 (by decide)).1).trans (by decide),
    by decide⟩

/-! ### RequestDistributor -/

theorem peersOf_cons (a : Nat) (b : Odr.PeerID) (l : List (Nat × Odr.PeerID)) (r : Nat) :
    Odr.peersOf ((a, b) :: l) r = if a = r then b :: Odr.peersOf l r else Odr.peersOf l r := by
  unfold Odr.peersOf
  by_cases h : a = r <;> simp [List.filter_cons, h]

theorem mem_peersOf (l : List (Nat × Odr.PeerID)) (r : Nat) (p : Odr.PeerID) :
    p ∈ Odr.peersOf l r ↔ (r, p) ∈ l := by
  unfold Odr.peersOf
  simp only [List.mem_map, List.mem_filter, decide_eq_true_eq]
  constructor
  · rintro ⟨⟨a, b⟩, ⟨hm, ha⟩, hb⟩
    simp only at ha hb
    subst ha; subst hb
    exact hm
  · intro h
    exact ⟨(r, p), ⟨h, rfl⟩, rfl⟩

theorem best_mem (l : List Odr.PoolEntry) (e : Odr.PoolEntry) (h : Odr.best l = some e) :
    e ∈ l := by
  induction l generalizing e with
  | nil => simp [Odr.best] at h
  | cons a as ih =>
    unfold Odr.best at h
    cases hb : Odr.best as with
    | none =>
      rw [hb] at h
      simp at h
      simp [h]
    | some b =>
      rw [hb] at h
      simp only at h
      split at h
      · have hbe : b = e := by simpa using h
        subst hbe
        exact List.mem_cons_of_mem _ (ih b hb)
      · have hae : a = e := by simpa using h
        simp [hae]

/-- The peer `selectPeer` returns is a connected peer of the pool outside the exclusion
set. -/
theorem selectPeer_spec (pool : List Odr.PoolEntry) (excluding : List Odr.PeerID)
    (p : Odr.PeerID) (h : Odr.selectPeer pool excluding = some p) :
    p ∉ excluding ∧ ∃ e ∈ pool, e.address = p ∧ e.connected = true := by
  unfold Odr.selectPeer at h
  rw [Option.map_eq_some'] at h
  obtain ⟨e, hbest, hp⟩ := h
  have hmem := best_mem _ e hbest
  rw [List.mem_filter] at hmem
  obtain ⟨hpool, hcond⟩ := hmem
  simp only [Bool.and_eq_true, Bool.not_eq_true', List.contains_eq_any_beq,
    List.any_eq_false, beq_iff_eq] at hcond
  subst hp
  refine ⟨?_, e, hpool, rfl, hcond.1⟩
  intro hin
  exact hcond.2 _ hin rfl

theorem removeRequest_nodup (r : Nat) (l : List Odr.InFlight)
    (h : (l.map fun e => e.request).Nodup) :
    ((Odr.removeRequest r l).map fun e => e.request).Nodup :=
  h.sublist ((List.filter_sublist l).map _)

theorem mem_removeRequest (r : Nat) (l : List Odr.InFlight) (e : Odr.InFlight) :
    e ∈ Odr.removeRequest r l ↔ e ∈ l ∧ e.request ≠ r := by
  unfold Odr.removeRequest
  simp [List.mem_filter]

theorem entryOf_some (d : Odr.Distributor) (r : Nat) (e : Odr.InFlight)
    (h : Odr.entryOf d r = some e) : e ∈ d.inflight ∧ e.request = r := by
  unfold Odr.entryOf at h
  exact ⟨List.mem_of_find?_eq_some h, by simpa using List.find?_some h⟩

/-- At most one element of a list maps to `r` when the images are pairwise distinct. -/
theorem filter_length_le_one (l : List Odr.InFlight)
    (h : (l.map fun e => e.request).Nodup) (r : Nat) :
    (l.filter fun e => e.request = r).length ≤ 1 := by
  induction l with
  | nil => simp
  | cons a as ih =>
    rw [List.map_cons, List.nodup_cons] at h
    by_cases ha : a.request = r
    · have hnil : (as.filter fun e => decide (e.request = r)) = [] := by
        rw [List.filter_eq_nil_iff]
        intro x hx hxr
        have hxr' : x.request = r := by simpa using hxr
        apply h.1
        rw [ha, ← hxr']
        exact List.mem_map.mpr ⟨x, hx, rfl⟩
      simp [List.filter_cons, ha, hnil]
    · have := ih h.2
      simpa [List.filter_cons, ha] using this

theorem length_le_of_nodup_subset (l₁ l₂ : List Odr.PeerID) (hn : l₁.Nodup)
    (hs : ∀ p ∈ l₁, p ∈ l₂) : l₁.length ≤ l₂.length :=
  (List.subperm_of_subset hn hs).length_le

/-- The state `dispatch` produces when it gives up on request `r`. -/
theorem giveUp_inv (dp : Odr.DistParams) (d : Odr.Distributor) (r : Nat)
    (h : Odr.DistInv dp d) :
    Odr.DistInv dp
      { d with inflight := Odr.removeRequest r d.inflight, terminal := r :: d.terminal } where
  inflightNodup := removeRequest_nodup r _ h.inflightNodup
  triedNodup := h.triedNodup
  triedBound := h.triedBound
  triedCovered := fun e he =>
    h.triedCovered e ((mem_removeRequest r _ e).mp he).1
  fresh := h.fresh
  inflightIssued := fun e he => h.inflightIssued e ((mem_removeRequest r _ e).mp he).1
  inflightLogged := fun e he => h.inflightLogged e ((mem_removeRequest r _ e).mp he).1
  failedLogged := h.failedLogged

/-- The invariant is kept by `dispatch`, provided the request was issued and every peer
it was dispatched to before has failed it. -/
theorem dispatch_inv (dp : Odr.DistParams) (d : Odr.Distributor) (r : Nat)
    (h : Odr.DistInv dp d) (hsub : ∀ p ∈ Odr.triedPeers d r, p ∈ Odr.failedPeers d r)
    (hiss : r ∈ d.issued) : Odr.DistInv dp (Odr.dispatch dp d r) := by
  unfold Odr.dispatch
  simp only
  split
  · exact giveUp_inv dp d r h
  · rename_i hlen
    cases hsel : Odr.selectPeer (d.pool.filter (dp.eligible r)) (Odr.failedPeers d r) with
    | none => exact giveUp_inv dp d r h
    | some peer =>
      have hnot : peer ∉ Odr.failedPeers d r := (selectPeer_spec _ _ _ hsel).1
      have hnew : peer ∉ Odr.triedPeers d r := fun hin => hnot (hsub peer hin)
      have htried : ∀ r', Odr.peersOf ((r, peer) :: d.tried) r'
          = if r = r' then peer :: Odr.triedPeers d r' else Odr.triedPeers d r' :=
        fun r' => peersOf_cons r peer d.tried r'
      simp only
      constructor
      · simp only [List.map_cons, List.nodup_cons]
        refine ⟨?_, removeRequest_nodup r _ h.inflightNodup⟩
        intro hin
        obtain ⟨e, he, her⟩ := List.mem_map.mp hin
        exact ((mem_removeRequest r _ e).mp he).2 her
      · intro r'
        show (Odr.peersOf ((r, peer) :: d.tried) r').Nodup
        rw [htried]
        split
        · rename_i hr
          subst hr
          exact List.nodup_cons.mpr ⟨hnew, h.triedNodup r⟩
        · exact h.triedNodup r'
      · intro r'
        show (Odr.peersOf ((r, peer) :: d.tried) r').length ≤ dp.maxAttempts
        rw [htried]
        split
        · rename_i hr
          subst hr
          have := length_le_of_nodup_subset _ _ (h.triedNodup r) hsub
          simp only [List.length_cons]
          omega
        · exact h.triedBound r'
      · intro e he p hp
        change p ∈ Odr.peersOf ((r, peer) :: d.tried) e.request at hp
        show p = e.peer ∨ p ∈ Odr.failedPeers d e.request
        rw [htried] at hp
        rcases List.mem_cons.mp he with rfl | hold
        · simp only [if_true, List.mem_cons] at hp
          rcases hp with hp | hp
          · exact Or.inl hp
          · exact Or.inr (hsub p hp)
        · have hne := ((mem_removeRequest r _ e).mp hold).2
          rw [if_neg (fun hr => hne hr.symm)] at hp
          exact h.triedCovered e ((mem_removeRequest r _ e).mp hold).1 p hp
      · intro r' hr'
        show Odr.peersOf ((r, peer) :: d.tried) r' = []
        rw [htried]
        have hne : r ≠ r' := fun hr => hr' (hr ▸ hiss)
        rw [if_neg hne]
        exact h.fresh r' hr'
      · intro e he
        rcases List.mem_cons.mp he with rfl | hold
        · exact hiss
        · exact h.inflightIssued e ((mem_removeRequest r _ e).mp hold).1
      · intro e he
        show e.peer ∈ Odr.peersOf ((r, peer) :: d.tried) e.request
        rw [htried]
        rcases List.mem_cons.mp he with rfl | hold
        · simp
        · have hne := ((mem_removeRequest r _ e).mp hold).2
          rw [if_neg (fun hr => hne hr.symm)]
          exact h.inflightLogged e ((mem_removeRequest r _ e).mp hold).1
      · intro q hq
        show q.2 ∈ Odr.peersOf ((r, peer) :: d.tried) q.1
        rw [htried]
        split
        · exact List.mem_cons_of_mem _ (h.failedLogged q hq)
        · exact h.failedLogged q hq

theorem failAndRedistribute_inv (dp : Odr.DistParams) (i : Odr.Interaction)
    (d : Odr.Distributor) (e : Odr.InFlight) (h : Odr.DistInv dp d) (he : e ∈ d.inflight) :
    Odr.DistInv dp (Odr.failAndRedistribute dp i d e) := by
  unfold Odr.failAndRedistribute
  have hfailed : ∀ r, Odr.peersOf ((e.request, e.peer) :: d.failed) r
      = if e.request = r then e.peer :: Odr.failedPeers d r else Odr.failedPeers d r :=
    fun r => peersOf_cons e.request e.peer d.failed r
  apply dispatch_inv
  · constructor
    · exact h.inflightNodup
    · exact h.triedNodup
    · exact h.triedBound
    · intro e' he' p hp
      show p = e'.peer ∨ p ∈ Odr.peersOf ((e.request, e.peer) :: d.failed) e'.request
      rw [hfailed]
      rcases h.triedCovered e' he' p hp with hp' | hp'
      · exact Or.inl hp'
      · right
        split
        · exact List.mem_cons_of_mem _ hp'
        · exact hp'
    · exact h.fresh
    · exact h.inflightIssued
    · exact h.inflightLogged
    · intro q hq
      rcases List.mem_cons.mp hq with rfl | hold
      · exact h.inflightLogged e he
      · exact h.failedLogged q hold
  · intro p hp
    show p ∈ Odr.peersOf ((e.request, e.peer) :: d.failed) e.request
    rw [hfailed, if_pos rfl]
    rcases h.triedCovered e he p hp with hp' | hp'
    · rw [hp']; exact List.mem_cons_self _ _
    · exact List.mem_cons_of_mem _ hp'
  · exact h.inflightIssued e he

theorem failEntry_inv (dp : Odr.DistParams) (i : Odr.Interaction)
    (guard : Odr.InFlight → Bool) (d : Odr.Distributor) (r : Nat) (h : Odr.DistInv dp d) :
    Odr.DistInv dp (Odr.failEntry dp i guard d r) := by
  unfold Odr.failEntry
  cases hent : Odr.entryOf d r with
  | none => exact h
  | some e =>
    simp only
    split
    · exact failAndRedistribute_inv dp i d e h (entryOf_some d r e hent).1
    · exact h

theorem foldl_failEntry_inv (dp : Odr.DistParams) (i : Odr.Interaction)
    (guard : Odr.InFlight → Bool) (rs : List Nat) (d : Odr.Distributor)
    (h : Odr.DistInv dp d) : Odr.DistInv dp (rs.foldl (Odr.failEntry dp i guard) d) := by
  induction rs generalizing d with
  | nil => exact h
  | cons r rest ih =>
    rw [List.foldl_cons]
    exact ih _ (failEntry_inv dp i guard d r h)

/-- Every transition of the distributor keeps the invariant. -/
theorem step_inv (dp : Odr.DistParams) (d : Odr.Distributor) (ev : Odr.Event)
    (h : Odr.DistInv dp d) : Odr.DistInv dp (Odr.step dp d ev) := by
  cases ev with
  | distribute r =>
    simp only [Odr.step]
    split
    · exact h
    · rename_i hni
      apply dispatch_inv
      · exact
          { inflightNodup := h.inflightNodup
            triedNodup := h.triedNodup
            triedBound := h.triedBound
            triedCovered := h.triedCovered
            fresh := fun r' hr' => h.fresh r' (fun hin => hr' (List.mem_cons_of_mem _ hin))
            inflightIssued := fun e he => List.mem_cons_of_mem _ (h.inflightIssued e he)
            inflightLogged := h.inflightLogged
            failedLogged := h.failedLogged }
      · intro p hp
        have hnil : Odr.triedPeers d r = [] := h.fresh r hni
        have hp' : p ∈ Odr.triedPeers d r := hp
        rw [hnil] at hp'
        exact absurd hp' (List.not_mem_nil _)
      · exact List.mem_cons_self _ _
  | verified r latency =>
    simp only [Odr.step]
    cases hent : Odr.entryOf d r with
    | none => exact h
    | some e =>
      exact
        { inflightNodup := removeRequest_nodup r _ h.inflightNodup
          triedNodup := h.triedNodup
          triedBound := h.triedBound
          triedCovered := fun e he =>
            h.triedCovered e ((mem_removeRequest r _ e).mp he).1
          fresh := h.fresh
          inflightIssued := fun e he => h.inflightIssued e ((mem_removeRequest r _ e).mp he).1
          inflightLogged := fun e he => h.inflightLogged e ((mem_removeRequest r _ e).mp he).1
          failedLogged := h.failedLogged }
  | invalid r => exact failEntry_inv dp _ _ d r h
  | timeout r => exact failEntry_inv dp _ _ d r h
  | disconnect peer =>
    simp only [Odr.step]
    apply foldl_failEntry_inv
    exact
      { inflightNodup := h.inflightNodup
        triedNodup := h.triedNodup
        triedBound := h.triedBound
        triedCovered := h.triedCovered
        fresh := h.fresh
        inflightIssued := h.inflightIssued
        inflightLogged := h.inflightLogged
        failedLogged := h.failedLogged }
  | withdraw r =>
    exact
      { inflightNodup := removeRequest_nodup r _ h.inflightNodup
        triedNodup := h.triedNodup
        triedBound := h.triedBound
        triedCovered := fun e he =>
          h.triedCovered e ((mem_removeRequest r _ e).mp he).1
        fresh := h.fresh
        inflightIssued := fun e he => h.inflightIssued e ((mem_removeRequest r _ e).mp he).1
        inflightLogged := fun e he => h.inflightLogged e ((mem_removeRequest r _ e).mp he).1
        failedLogged := h.failedLogged }
  | advance dt =>
    exact
      { inflightNodup := h.inflightNodup
        triedNodup := h.triedNodup
        triedBound := h.triedBound
        triedCovered := h.triedCovered
        fresh := h.fresh
        inflightIssued := h.inflightIssued
        inflightLogged := h.inflightLogged
        failedLogged := h.failedLogged }

theorem init_inv (dp : Odr.DistParams) (pool : List Odr.PoolEntry) :
    Odr.DistInv dp (Odr.Distributor.init pool) := by
  constructor <;> simp [Odr.Distributor.init, Odr.triedPeers, Odr.peersOf]

theorem run_inv (dp : Odr.DistParams) (events : List Odr.Event) (d : Odr.Distributor)
    (h : Odr.DistInv dp d) : Odr.DistInv dp (Odr.run dp d events) := by
  induction events generalizing d with
  | nil => exact h
  | cons ev rest ih =>
    unfold Odr.run
    rw [List.foldl_cons]
    exact ih _ (step_inv dp d ev h)

/-! ### RetrieveManager -/

theorem run_cons (dp : Odr.DistParams) (d : Odr.Distributor) (ev : Odr.Event)
    (evs : List Odr.Event) : Odr.run dp d (ev :: evs) = Odr.run dp (Odr.step dp d ev) evs := by
  unfold Odr.run
  rw [List.foldl_cons]

/-- The distributor state `retrieveLoop` ends in is reached through distributor events. -/
theorem retrieveLoop_reachable (dp : Odr.DistParams) (need : Odr.Need) (c : Nat)
    (answer : Odr.PeerID → Odr.Reply) (n : Nat) (d : Odr.Distributor) :
    ∃ evs, (Odr.retrieveLoop dp need c answer n d).2 = Odr.run dp d evs := by
  induction n generalizing d with
  | zero => exact ⟨[], rfl⟩
  | succ n ih =>
    unfold Odr.retrieveLoop
    cases hent : Odr.entryOf d need.request with
    | none => exact ⟨[], rfl⟩
    | some e =>
      simp only
      cases hans : answer e.peer with
      | response payload latency =>
        simp only
        split
        · exact ⟨[Odr.Event.verified need.request latency], rfl⟩
        · obtain ⟨evs, hevs⟩ := ih (Odr.step dp d (Odr.Event.invalid need.request))
          exact ⟨Odr.Event.invalid need.request :: evs, by rw [run_cons]; exact hevs⟩
      | timeout =>
        simp only
        obtain ⟨evs, hevs⟩ := ih (Odr.step dp
          (Odr.step dp d (Odr.Event.advance (e.deadline - d.now)))
          (Odr.Event.timeout need.request))
        exact ⟨Odr.Event.advance (e.deadline - d.now) :: Odr.Event.timeout need.request :: evs,
          by rw [run_cons, run_cons]; exact hevs⟩
      | disconnected =>
        simp only
        obtain ⟨evs, hevs⟩ := ih (Odr.step dp d (Odr.Event.disconnect e.peer))
        exact ⟨Odr.Event.disconnect e.peer :: evs, by rw [run_cons]; exact hevs⟩

theorem retrieve_reachable (dp : Odr.DistParams) (ix : Odr.ChainIndexer)
    (localHeader : Nat → Option Nat) (answer : Odr.PeerID → Odr.Reply)
    (d : Odr.Distributor) (need : Odr.Need) :
    ∃ evs, (Odr.retrieve dp ix localHeader answer d need).2 = Odr.run dp d evs := by
  unfold Odr.retrieve
  cases Odr.commitmentFor ix localHeader need.height with
  | none => exact ⟨[], rfl⟩
  | some c =>
    simp only
    obtain ⟨evs, hevs⟩ := retrieveLoop_reachable dp need c answer dp.maxAttempts
      (Odr.step dp d (Odr.Event.distribute need.request))
    exact ⟨Odr.Event.distribute need.request :: evs, by rw [run_cons]; exact hevs⟩

theorem retrieve_inv (dp : Odr.DistParams) (ix : Odr.ChainIndexer)
    (localHeader : Nat → Option Nat) (answer : Odr.PeerID → Odr.Reply)
    (d : Odr.Distributor) (need : Odr.Need) (h : Odr.DistInv dp d) :
    Odr.DistInv dp (Odr.retrieve dp ix localHeader answer d need).2 := by
  obtain ⟨evs, hevs⟩ := retrieve_reachable dp ix localHeader answer d need
  rw [hevs]
  exact run_inv dp evs d h

/-- A VerifiedResult of the loop carries a payload some peer answered with and the
validator accepted against `c`. -/
theorem retrieveLoop_sound (dp : Odr.DistParams) (need : Odr.Need) (c : Nat)
    (answer : Odr.PeerID → Odr.Reply) (n : Nat) (d : Odr.Distributor) (payload : Odr.Payload)
    (h : (Odr.retrieveLoop dp need c answer n d).1 = Odr.Outcome.VerifiedResult payload) :
    need.validator c payload = true ∧
    ∃ peer latency, answer peer = Odr.Reply.response payload latency := by
  induction n generalizing d with
  | zero => simp [Odr.retrieveLoop] at h
  | succ n ih =>
    unfold Odr.retrieveLoop at h
    cases hent : Odr.entryOf d need.request with
    | none => rw [hent] at h; simp at h
    | some e =>
      rw [hent] at h
      simp only at h
      cases hans : answer e.peer with
      | response p latency =>
        rw [hans] at h
        simp only at h
        by_cases hv : need.validator c p = true
        · rw [if_pos hv] at h
          have hp : p = payload := by simpa using h
          subst hp
          exact ⟨hv, e.peer, latency, hans⟩
        · rw [if_neg hv] at h
          exact ih _ h
      | timeout =>
        rw [hans] at h
        exact ih _ h
      | disconnected =>
        rw [hans] at h
        exact ih _ h

/-- C1 (P2, verification soundness; the retrieve manager is modelled from the
specification): `retrieve` returns a VerifiedResult only if a commitment was in effect
when the call was made, some peer answered with exactly that payload, and the validator
of the request returned true on that payload against that commitment.  A payload the
validator rejects never comes back as a VerifiedResult. -/
theorem retrieve_verification_sound (dp : Odr.DistParams) (ix : Odr.ChainIndexer)
    (localHeader : Nat → Option Nat) (answer : Odr.PeerID → Odr.Reply)
    (d : Odr.Distributor) (need : Odr.Need) :
    (∀ payload,
      (Odr.retrieve dp ix localHeader answer d need).1 = Odr.Outcome.VerifiedResult payload →
      ∃ c, Odr.commitmentFor ix localHeader need.height = some c ∧
        need.validator c payload = true ∧
        ∃ peer latency, answer peer = Odr.Reply.response payload latency) ∧
    (∀ c payload, Odr.commitmentFor ix localHeader need.height = some c →
      need.validator c payload = false →
      (Odr.retrieve dp ix localHeader answer d need).1
        ≠ Odr.Outcome.VerifiedResult payload) := by
  have main : ∀ payload,
      (Odr.retrieve dp ix localHeader answer d need).1 = Odr.Outcome.VerifiedResult payload →
      ∃ c, Odr.commitmentFor ix localHeader need.height = some c ∧
        need.validator c payload = true ∧
        ∃ peer latency, answer peer = Odr.Reply.response payload latency := by
    intro payload h
    unfold Odr.retrieve at h
    cases hc : Odr.commitmentFor ix localHeader need.height with
    | none => rw [hc] at h; simp at h
    | some c =>
      rw [hc] at h
      simp only at h
      have := retrieveLoop_sound dp need c answer _ _ payload h
      exact ⟨c, rfl, this.1, this.2⟩
  refine ⟨main, ?_⟩
  intro c payload hc hbad hres
  obtain ⟨c', hc', hv, _⟩ := main payload hres
  rw [hc] at hc'
  have : c = c' := by simpa using hc'
  subst this
  rw [hbad] at hv
  exact absurd hv (by simp)

/-- Witness for C1 (Scenario B): P1 answers with a payload that fails validation
against the commitment 42 of height 100, the request is redistributed to P2, whose
payload validates and is returned; P1 ends excluded for the request. -/
theorem retrieve_verification_sound_witness :
    ((Odr.retrieve sampleDist scenarioIndexer (fun _ => some 42) scenarioAnswer
          (Odr.Distributor.init samplePool) sampleNeed).1
        = Odr.Outcome.VerifiedResult [40, 2] ∧
      ∃ c, Odr.commitmentFor scenarioIndexer (fun _ => some 42) sampleNeed.height = some c ∧
        sampleNeed.validator c [40, 2] = true ∧
        ∃ peer latency, scenarioAnswer peer = Odr.Reply.response [40, 2] latency) ∧
    sampleNeed.validator 42 [1, 2] = false ∧
    Odr.failedPeers
        (Odr.retrieve sampleDist scenarioIndexer (fun _ => some 42) scenarioAnswer
          (Odr.Distributor.init samplePool) sampleNeed).2 7
      = [1] :=
  have hres : (Odr.retrieve sampleDist scenarioIndexer (fun _ => some 42) scenarioAnswer
        (Odr.Distributor.init samplePool) sampleNeed).1
      = Odr.Outcome.VerifiedResult [40, 2] := by decide
  ⟨⟨hres, (retrieve_verification_sound sampleDist scenarioIndexer (fun _ => some 42)
      scenarioAnswer (Odr.Distributor.init samplePool) sampleNeed).1 [40, 2] hres⟩,
    by decide, by decide⟩

/-- An entry `dispatch` leaves in flight for the dispatched request is on a peer that
has not failed the request. -/
theorem dispatch_entry_fresh (dp : Odr.DistParams) (d : Odr.Distributor) (r : Nat)
    (e : Odr.InFlight) (he : e ∈ (Odr.dispatch dp d r).inflight) (her : e.request = r) :
    e.peer ∉ Odr.failedPeers d r := by
  unfold Odr.dispatch at he
  simp only at he
  split at he
  · exact absurd her ((mem_removeRequest r _ e).mp he).2
  · cases hsel : Odr.selectPeer (d.pool.filter (dp.eligible r)) (Odr.failedPeers d r) with
    | none =>
      rw [hsel] at he
      exact absurd her ((mem_removeRequest r _ e).mp he).2
    | some peer =>
      rw [hsel] at he
      simp only at he
      rcases List.mem_cons.mp he with rfl | hold
      · exact (selectPeer_spec _ _ _ hsel).1
      · exact absurd her ((mem_removeRequest r _ e).mp hold).2

/-- C2 (P1, at most one in flight; the request distributor is modelled from the
specification): in every state the distributor reaches from its initial state, and in
every state a `retrieve` call leaves behind from there, each request has at most one
InFlight entry.  A retry replaces the entry: when the entry `e` of a request fails
(invalid answer), the request afterwards has at most one entry and none on the peer of
`e`. -/
theorem at_most_one_inflight (dp : Odr.DistParams) (pool : List Odr.PoolEntry)
    (events : List Odr.Event) (r : Nat) :
    (Odr.entriesOf (Odr.run dp (Odr.Distributor.init pool) events) r).length ≤ 1 ∧
    (∀ (ix : Odr.ChainIndexer) (localHeader : Nat → Option Nat)
        (answer : Odr.PeerID → Odr.Reply) (need : Odr.Need),
      (Odr.entriesOf
        (Odr.retrieve dp ix localHeader answer
          (Odr.run dp (Odr.Distributor.init pool) events) need).2 r).length ≤ 1) ∧
    (∀ e, Odr.entryOf (Odr.run dp (Odr.Distributor.init pool) events) r = some e →
      (Odr.entriesOf
        (Odr.step dp (Odr.run dp (Odr.Distributor.init pool) events) (Odr.Event.invalid r))
        r).length ≤ 1 ∧
      ∀ e' ∈ Odr.entriesOf
          (Odr.step dp (Odr.run dp (Odr.Distributor.init pool) events) (Odr.Event.invalid r))
          r,
        e'.peer ≠ e.peer) := by
  have hinv := run_inv dp events _ (init_inv dp pool)
  refine ⟨filter_length_le_one _ hinv.inflightNodup r, ?_, ?_⟩
  · intro ix localHeader answer need
    exact filter_length_le_one _
      (retrieve_inv dp ix localHeader answer _ need hinv).inflightNodup r
  · intro e hent
    refine ⟨filter_length_le_one _ (step_inv dp _ _ hinv).inflightNodup r, ?_⟩
    intro e' he'
    unfold Odr.entriesOf at he'
    rw [List.mem_filter] at he'
    obtain ⟨hmem, hreq⟩ := he'
    have hreq' : e'.request = r := by simpa using hreq
    obtain ⟨_, her⟩ := entryOf_some _ r e hent
    simp only [Odr.step, Odr.failEntry, hent, if_true, Odr.failAndRedistribute] at hmem
    rw [her] at hmem
    have hfresh := dispatch_entry_fresh dp _ r e' hmem hreq'
    intro hpeer
    apply hfresh
    show e'.peer ∈ Odr.peersOf ((r, e.peer) :: _) r
    rw [peersOf_cons, if_pos rfl, hpeer]
    exact List.mem_cons_self _ _

/-- C3 (P3, retry bound; the request distributor is modelled from the specification):
in every state the distributor reaches from its initial state, the peers a request was
dispatched to are pairwise distinct and at most `maxAttempts` many, and they include
every peer that failed the request and the peer it is in flight on.  In particular that
holds for a request whose `retrieve` call ended in a terminal Failure. -/
theorem retry_bound (dp : Odr.DistParams) (pool : List Odr.PoolEntry)
    (events : List Odr.Event) (r : Nat) :
    ((Odr.triedPeers (Odr.run dp (Odr.Distributor.init pool) events) r).Nodup ∧
      (Odr.triedPeers (Odr.run dp (Odr.Distributor.init pool) events) r).length
        ≤ dp.maxAttempts) ∧
    (∀ p ∈ Odr.failedPeers (Odr.run dp (Odr.Distributor.init pool) events) r,
      p ∈ Odr.triedPeers (Odr.run dp (Odr.Distributor.init pool) events) r) ∧
    (∀ e ∈ Odr.entriesOf (Odr.run dp (Odr.Distributor.init pool) events) r,
      e.peer ∈ Odr.triedPeers (Odr.run dp (Odr.Distributor.init pool) events) r) ∧
    (∀ (ix : Odr.ChainIndexer) (localHeader : Nat → Option Nat)
        (answer : Odr.PeerID → Odr.Reply) (need : Odr.Need) (f : Odr.Failure),
      (Odr.retrieve dp ix localHeader answer
          (Odr.run dp (Odr.Distributor.init pool) events) need).1 = Odr.Outcome.Failure f →
      (Odr.triedPeers
          (Odr.retrieve dp ix localHeader answer
            (Odr.run dp (Odr.Distributor.init pool) events) need).2 need.request).Nodup ∧
      (Odr.triedPeers
          (Odr.retrieve dp ix localHeader answer
            (Odr.run dp (Odr.Distributor.init pool) events) need).2 need.request).length
        ≤ dp.maxAttempts) := by
  have hinv := run_inv dp events _ (init_inv dp pool)
  refine ⟨⟨hinv.triedNodup r, hinv.triedBound r⟩, ?_, ?_, ?_⟩
  · intro p hp
    have hmem : (r, p) ∈ (Odr.run dp (Odr.Distributor.init pool) events).failed :=
      (mem_peersOf _ r p).mp hp
    exact hinv.failedLogged (r, p) hmem
  · intro e he
    unfold Odr.entriesOf at he
    rw [List.mem_filter] at he
    have hreq : e.request = r := by simpa using he.2
    rw [← hreq]
    exact hinv.inflightLogged e he.1
  · intro ix localHeader answer need f _
    have h := retrieve_inv dp ix localHeader answer _ need hinv
    exact ⟨h.triedNodup _, h.triedBound _⟩

/-- Witness for C3: with two peers that both answer with a payload that fails validation
(against the commitment 43), the request ends in Failure(NotAvailable) after exactly the
two peers were tried, each once, within the bound of 3 attempts. -/
theorem retry_bound_witness :
    (Odr.retrieve sampleDist scenarioIndexer (fun _ => some 43) scenarioAnswer
        (Odr.run sampleDist (Odr.Distributor.init samplePool) []) sampleNeed).1
      = Odr.Outcome.Failure Odr.Failure.NotAvailable ∧
    Odr.triedPeers
        (Odr.retrieve sampleDist scenarioIndexer (fun _ => some 43) scenarioAnswer
          (Odr.run sampleDist (Odr.Distributor.init samplePool) []) sampleNeed).2 7
      = [2, 1] ∧
    (Odr.triedPeers
        (Odr.retrieve sampleDist scenarioIndexer (fun _ => some 43) scenarioAnswer
          (Odr.run sampleDist (Odr.Distributor.init samplePool) []) sampleNeed).2 7).length
      ≤ sampleDist.maxAttempts :=
  have hres : (Odr.retrieve sampleDist scenarioIndexer (fun _ => some 43) scenarioAnswer
        (Odr.run sampleDist (Odr.Distributor.init samplePool) []) sampleNeed).1
      = Odr.Outcome.Failure Odr.Failure.NotAvailable := by decide
  ⟨hres, by decide,
    ((retry_bound sampleDist samplePool [] 7).2.2.2 scenarioIndexer (fun _ => some 43)
      scenarioAnswer sampleNeed Odr.Failure.NotAvailable hres).2⟩

/-- Witness for C2: a request is distributed, its peer times out, the request is
redistributed, and the second peer disconnects.  After each step it has at most one
entry, first on P1 and then on P2. -/
theorem at_most_one_inflight_witness :
    (Odr.entriesOf
        (Odr.run sampleDist (Odr.Distributor.init samplePool) [Odr.Event.distribute 7]) 7).map
        (fun e => e.peer) = [1] ∧
    (Odr.entriesOf
        (Odr.run sampleDist (Odr.Distributor.init samplePool)
          [Odr.Event.distribute 7, Odr.Event.advance 10, Odr.Event.timeout 7]) 7).map
        (fun e => e.peer) = [2] ∧
    (Odr.entriesOf
        (Odr.run sampleDist (Odr.Distributor.init samplePool)
          [Odr.Event.distribute 7, Odr.Event.advance 10, Odr.Event.timeout 7,
            Odr.Event.disconnect 2]) 7).length ≤ 1 :=
  ⟨by decide, by decide,
    (at_most_one_inflight sampleDist samplePool
      [Odr.Event.distribute 7, Odr.Event.advance 10, Odr.Event.timeout 7,
        Odr.Event.disconnect 2] 7).1⟩

/-! ### `haa/backend.go`: extra data, haaerbase, consensus engine -/

/-- C11: for every input byte slice `extra`, the result of `makeExtraData(extra)` is at
most `params.MaximumExtraDataSize` bytes long; a non-empty input whose length is within
the limit is returned unchanged, and an input longer than the limit yields nil. -/
theorem makeExtraData_within_limit (defaultExtra : List Nat) (MaximumExtraDataSize : Nat)
    (extra : List Nat) :
    haa.sliceLen (haa.makeExtraData defaultExtra MaximumExtraDataSize extra)
      ≤ MaximumExtraDataSize ∧
    (extra.length ≠ 0 → extra.length ≤ MaximumExtraDataSize →
      haa.makeExtraData defaultExtra MaximumExtraDataSize extra = some extra) ∧
    (extra.length > MaximumExtraDataSize →
      haa.makeExtraData defaultExtra MaximumExtraDataSize extra = none) := by
  refine ⟨?_, ?_, ?_⟩
  · unfold haa.makeExtraData
    simp only
    generalize (if extra.length = 0 then defaultExtra else extra) = chosen
    by_cases h : chosen.length > MaximumExtraDataSize
    · simp [h, haa.sliceLen]
    · simp only [h, if_false, haa.sliceLen]
      omega
  · intro hne hle
    simp [haa.makeExtraData, hne, Nat.not_lt.mpr hle]
  · intro hgt
    have hne : extra.length ≠ 0 := by omega
    simp [haa.makeExtraData, hne, hgt]

/-- Witness for C11: with the limit 32, a two byte input is returned unchanged, a 33 byte
input yields nil, and the empty input yields the default. -/
theorem makeExtraData_within_limit_witness :
    haa.makeExtraData [1, 2, 3] 32 [9, 9] = some [9, 9] ∧
      haa.makeExtraData [1, 2, 3] 32 (List.replicate 33 7) = none ∧
      haa.makeExtraData [1, 2, 3] 32 [] = some [1, 2, 3] :=
  ⟨(makeExtraData_within_limit [1, 2, 3] 32 [9, 9]).2.1 (by decide) (by decide),
    (makeExtraData_within_limit [1, 2, 3] 32 (List.replicate 33 7)).2.2 (by decide),
    by decide⟩

/-- C12: `haaerbase()` returns the configured address with a nil error whenever that
address is non-zero, without consulting the wallets and without changing the service.
When it is zero and the first wallet has a first account, it returns the address of
that account with a nil error and stores it as the configured address.  It fails with
"haaerbase must be explicitly specified", returning the zero address and changing
nothing, if and only if the configured address is zero and either there is no wallet or
the first wallet has no accounts; there is no other error. -/
theorem haaerbase_resolution (s : haa.haachain) :
    (s.haaerbase ≠ 0 → haa.haaerbase s = ((s.haaerbase, none), s, [])) ∧
    (s.haaerbase = 0 → ∀ wallet wallets account accounts,
      s.accountManager.Wallets = wallet :: wallets → wallet.Accounts = account :: accounts →
      haa.haaerbase s
        = ((account.Address, none), { s with haaerbase := account.Address },
            [haa.Call.Wallets, haa.Call.Accounts])) ∧
    ((haa.haaerbase s).1.2 = some Err.haaerbaseUnspecified ↔
      s.haaerbase = 0 ∧
        (s.accountManager.Wallets = [] ∨
          ∃ wallet wallets, s.accountManager.Wallets = wallet :: wallets ∧
            wallet.Accounts = [])) ∧
    ((haa.haaerbase s).1.2 ≠ none →
      (haa.haaerbase s).1 = (0, some Err.haaerbaseUnspecified) ∧
      (haa.haaerbase s).2.1 = s) := by
  by_cases h0 : s.haaerbase = 0
  · cases hw : s.accountManager.Wallets with
    | nil =>
      have hres : haa.haaerbase s
          = ((0, some Err.haaerbaseUnspecified), s, [haa.Call.Wallets]) := by
        simp [haa.haaerbase, h0, hw]
      refine ⟨fun hne => absurd h0 hne, ?_, ?_, ?_⟩
      · intro _ wallet wallets account accounts hw' _
        simp at hw'
      · rw [hres]; simp [h0]
      · intro _; rw [hres]; exact ⟨rfl, rfl⟩
    | cons w ws =>
      cases ha : w.Accounts with
      | nil =>
        have hres : haa.haaerbase s
            = ((0, some Err.haaerbaseUnspecified), s,
                [haa.Call.Wallets, haa.Call.Accounts]) := by
          simp [haa.haaerbase, h0, hw, ha]
        refine ⟨fun hne => absurd h0 hne, ?_, ?_, ?_⟩
        · intro _ wallet wallets account accounts hw' ha'
          have hwe : w = wallet := by
            have := List.cons.inj hw'
            exact this.1
          subst hwe
          rw [ha] at ha'
          simp at ha'
        · rw [hres]; simp [h0, ha]
        · intro _; rw [hres]; exact ⟨rfl, rfl⟩
      | cons a as =>
        have hres : haa.haaerbase s
            = ((a.Address, none), { s with haaerbase := a.Address },
                [haa.Call.Wallets, haa.Call.Accounts]) := by
          simp [haa.haaerbase, h0, hw, ha]
        refine ⟨fun hne => absurd h0 hne, ?_, ?_, ?_⟩
        · intro _ wallet wallets account accounts hw' ha'
          have hwe : w = wallet := (List.cons.inj hw').1
          subst hwe
          rw [ha] at ha'
          have hae : a = account := (List.cons.inj ha').1
          subst hae
          exact hres
        · rw [hres]
          simp [ha]
        · intro hne; rw [hres] at hne; simp at hne
  · have hres : haa.haaerbase s = ((s.haaerbase, none), s, []) := by
      simp [haa.haaerbase, h0]
    refine ⟨fun _ => hres, fun h => absurd h h0, ?_, ?_⟩
    · rw [hres]; simp [h0]
    · intro hne; rw [hres] at hne; simp at hne

/-- Witness for C12: a configured address 5 is returned as it is; with no configured
address the first account 7 of the first wallet is returned and stored; with no wallet,
or with a first wallet without accounts (even if a second wallet has one), the call
fails. -/
theorem haaerbase_resolution_witness :
    (haa.haaerbase (serviceWith 5 [⟨[⟨7⟩]⟩])).1 = (5, none) ∧
      (haa.haaerbase (serviceWith 5 [⟨[⟨7⟩]⟩])).2.2 = [] ∧
      (haa.haaerbase (serviceWith 0 [⟨[⟨7⟩, ⟨8⟩]⟩, ⟨[⟨9⟩]⟩])).1 = (7, none) ∧
      (haa.haaerbase (serviceWith 0 [⟨[⟨7⟩, ⟨8⟩]⟩, ⟨[⟨9⟩]⟩])).2.1.haaerbase = 7 ∧
      (haa.haaerbase (serviceWith 0 [])).1 = (0, some Err.haaerbaseUnspecified) ∧
      (haa.haaerbase (serviceWith 0 [⟨[]⟩, ⟨[⟨9⟩]⟩])).1.2 = some Err.haaerbaseUnspecified :=
  ⟨by decide, by decide, by decide, by decide, by decide,
    (haaerbase_resolution (serviceWith 0 [⟨[]⟩, ⟨[⟨9⟩]⟩])).2.2.1.mpr
      ⟨by decide, Or.inr ⟨⟨[]⟩, [⟨[⟨9⟩]⟩], by decide, by decide⟩⟩⟩

/-- C13: `CreateConsensusEngine` returns a Clique (proof-of-authority) engine whenever
`chainConfig.Clique` is non-nil, regardless of the ethash `PowMode`; otherwise it
returns the fake, test or shared ethash engine for `ModeFake`, `ModeTest` and
`ModeShared` respectively, and for every other `PowMode` a full ethash engine, built
from the cache and dataset settings of the configuration (with the cache directory
resolved), whose thread count is set to -1 (CPU mining disabled). -/
theorem createConsensusEngine_selection (modes : ethash.Modes)
    (ResolvePath : String → String) (config : ethash.Config)
    (chainConfig : params.ChainConfig)
    (hft : modes.ModeFake ≠ modes.ModeTest) (hfs : modes.ModeFake ≠ modes.ModeShared)
    (hts : modes.ModeTest ≠ modes.ModeShared) :
    (∀ clique, chainConfig.Clique = some clique →
      haa.CreateConsensusEngine modes ResolvePath config chainConfig
        = consensus.Engine.clique clique) ∧
    (chainConfig.Clique = none →
      (config.PowMode = modes.ModeFake →
        haa.CreateConsensusEngine modes ResolvePath config chainConfig
          = consensus.Engine.ethashFaker) ∧
      (config.PowMode = modes.ModeTest →
        haa.CreateConsensusEngine modes ResolvePath config chainConfig
          = consensus.Engine.ethashTester) ∧
      (config.PowMode = modes.ModeShared →
        haa.CreateConsensusEngine modes ResolvePath config chainConfig
          = consensus.Engine.ethashShared) ∧
      (config.PowMode ≠ modes.ModeFake → config.PowMode ≠ modes.ModeTest →
        config.PowMode ≠ modes.ModeShared →
        haa.CreateConsensusEngine modes ResolvePath config chainConfig
          = consensus.Engine.ethash
              { config :=
                  { CacheDir := ResolvePath config.CacheDir
                    CachesInMem := config.CachesInMem
                    CachesOnDisk := config.CachesOnDisk
                    DatasetDir := config.DatasetDir
                    DatasetsInMem := config.DatasetsInMem
                    DatasetsOnDisk := config.DatasetsOnDisk
                    PowMode := 0 }
                threads := some (-1) })) := by
  constructor
  · intro clique hc
    simp [haa.CreateConsensusEngine, hc]
  · intro hc
    refine ⟨?_, ?_, ?_, ?_⟩
    · intro h
      simp [haa.CreateConsensusEngine, hc, h]
    · intro h
      have hne : ¬ modes.ModeTest = modes.ModeFake := fun e => hft e.symm
      simp [haa.CreateConsensusEngine, hc, h, hne]
    · intro h
      have hne1 : ¬ modes.ModeShared = modes.ModeFake := fun e => hfs e.symm
      have hne2 : ¬ modes.ModeShared = modes.ModeTest := fun e => hts e.symm
      simp [haa.CreateConsensusEngine, hc, h, hne1, hne2]
    · intro h1 h2 h3
      simp [haa.CreateConsensusEngine, hc, h1, h2, h3, ethash.Ethash.SetThreads, ethash.New]

/-- Witness for C13: with the go-ethereum modes (shared 1, test 2, fake 3), a chain
configuration with Clique settings gets the Clique engine even in fake mode, and without
them the modes 3, 2, 1 and 0 get the fake, test, shared and full engine. -/
theorem createConsensusEngine_selection_witness :
    haa.CreateConsensusEngine sampleModes id (sampleEthash 3) ⟨some ⟨15, 30000⟩⟩
        = consensus.Engine.clique ⟨15, 30000⟩ ∧
      haa.CreateConsensusEngine sampleModes id (sampleEthash 3) ⟨none⟩
        = consensus.Engine.ethashFaker ∧
      haa.CreateConsensusEngine sampleModes id (sampleEthash 2) ⟨none⟩
        = consensus.Engine.ethashTester ∧
      haa.CreateConsensusEngine sampleModes id (sampleEthash 1) ⟨none⟩
        = consensus.Engine.ethashShared ∧
      haa.CreateConsensusEngine sampleModes id (sampleEthash 0) ⟨none⟩
        = consensus.Engine.ethash ⟨sampleEthash 0, some (-1)⟩ :=
  have h := fun mode clique =>
    createConsensusEngine_selection sampleModes id (sampleEthash mode) ⟨clique⟩
      (by decide) (by decide) (by decide)
  ⟨(h 3 (some ⟨15, 30000⟩)).1 ⟨15, 30000⟩ rfl,
    ((h 3 none).2 rfl).1 rfl,
    ((h 2 none).2 rfl).2.1 rfl,
    ((h 1 none).2 rfl).2.2.1 rfl,
    by decide⟩

/-! ### `haa/metrics.go` -/

/-- The two inbound meters `ReadMsg` picks are the packets and the traffic meter of the
category the message code falls in. -/
theorem inMeters_eq (pc : haa.Protocol) (version : Int) (Code : Nat) :
    haa.inMeters pc version Code
      = (⟨haa.classify pc version Code, haa.Direction.In, haa.Quantity.Packets⟩,
          ⟨haa.classify pc version Code, haa.Direction.In, haa.Quantity.Traffic⟩) := by
  unfold haa.inMeters haa.classify
  split_ifs <;> rfl

/-- The two outbound meters `WriteMsg` picks are the packets and the traffic meter of the
category the message code falls in. -/
theorem outMeters_eq (pc : haa.Protocol) (version : Int) (Code : Nat) :
    haa.outMeters pc version Code
      = (⟨haa.classify pc version Code, haa.Direction.Out, haa.Quantity.Packets⟩,
          ⟨haa.classify pc version Code, haa.Direction.Out, haa.Quantity.Traffic⟩) := by
  unfold haa.outMeters haa.classify
  split_ifs <;> rfl

theorem readMsg_ok (pc : haa.Protocol) (rw : haa.meteredMsgReadWriter) (msg : haa.Msg) :
    rw.ReadMsg pc (msg, none)
      = ((msg, none),
          [⟨⟨haa.classify pc rw.version msg.Code, haa.Direction.In, haa.Quantity.Packets⟩, 1⟩,
            ⟨⟨haa.classify pc rw.version msg.Code, haa.Direction.In, haa.Quantity.Traffic⟩,
              (msg.Size : Int)⟩]) := by
  simp [haa.meteredMsgReadWriter.ReadMsg, inMeters_eq]

theorem writeMsg_ok (pc : haa.Protocol) (rw : haa.meteredMsgReadWriter) (msg : haa.Msg)
    (wrapped : Option Err) :
    rw.WriteMsg pc msg wrapped
      = (wrapped,
          [⟨⟨haa.classify pc rw.version msg.Code, haa.Direction.Out, haa.Quantity.Packets⟩, 1⟩,
            ⟨⟨haa.classify pc rw.version msg.Code, haa.Direction.Out, haa.Quantity.Traffic⟩,
              (msg.Size : Int)⟩]) := by
  simp [haa.meteredMsgReadWriter.WriteMsg, outMeters_eq]

/-- C14: `ReadMsg` short-circuits on error.  If the wrapped `ReadMsg` returns a non-nil
error, `ReadMsg` returns that same message and error and marks no meter at all, so the
count of every meter stays what it was. -/
theorem readMsg_error_short_circuits (pc : haa.Protocol) (rw : haa.meteredMsgReadWriter)
    (msg : haa.Msg) (e : Err) :
    rw.ReadMsg pc (msg, some e) = ((msg, some e), []) ∧
    ∀ (marks : List haa.Mark) (m : haa.Meter),
      haa.count (haa.streamStep pc (rw, marks) (haa.StreamCall.ReadMsg (msg, some e))).2 m
        = haa.count marks m := by
  have h : rw.ReadMsg pc (msg, some e) = ((msg, some e), []) := by
    simp [haa.meteredMsgReadWriter.ReadMsg]
  refine ⟨h, ?_⟩
  intro marks m
  simp [haa.streamStep, h]

/-- Witness for C14: a read that fails with "EOF" hands the error on and leaves the
inbound packets total of the sample session at 2. -/
theorem readMsg_error_short_circuits_witness :
    (⟨63⟩ : haa.meteredMsgReadWriter).ReadMsg sampleProtocol
        (sampleMsg 4 100, some (Err.other "EOF"))
      = ((sampleMsg 4 100, some (Err.other "EOF")), []) ∧
    haa.total
        (haa.streamRun sampleProtocol (⟨0⟩, [])
          (sampleSession ++ [haa.StreamCall.ReadMsg (sampleMsg 4 100, some (Err.other "EOF"))])).2
        haa.Direction.In haa.Quantity.Packets = 2 :=
  ⟨(readMsg_error_short_circuits sampleProtocol ⟨63⟩ (sampleMsg 4 100) (Err.other "EOF")).1,
    by decide⟩

theorem count_append (a b : List haa.Mark) (m : haa.Meter) :
    haa.count (a ++ b) m = haa.count a m + haa.count b m := by
  simp [haa.count, List.filter_append, List.map_append, List.sum_append]

theorem total_append (a b : List haa.Mark) (d : haa.Direction) (q : haa.Quantity) :
    haa.total (a ++ b) d q = haa.total a d q + haa.total b d q := by
  simp only [haa.total, haa.Category.all, List.map_cons, List.map_nil, List.sum_cons,
    List.sum_nil, count_append]
  ring

/-- What a pair of marks on the packets and traffic meter of one category adds to the
totals. -/
theorem total_pair (c : haa.Category) (d d' : haa.Direction) (q : haa.Quantity) (n : Int) :
    haa.total [⟨⟨c, d, haa.Quantity.Packets⟩, 1⟩, ⟨⟨c, d, haa.Quantity.Traffic⟩, n⟩] d' q
      = if d = d' then (if q = haa.Quantity.Packets then 1 else n) else 0 := by
  cases c <;> cases d <;> cases d' <;> cases q <;>
    simp [haa.total, haa.Category.all, haa.count, List.filter_cons]

/-- The four totals after a sequence of calls, starting from any marks. -/
theorem streamRun_totals (pc : haa.Protocol) (calls : List haa.StreamCall)
    (st : haa.meteredMsgReadWriter × List haa.Mark) :
    haa.total (haa.streamRun pc st calls).2 haa.Direction.In haa.Quantity.Packets
      = haa.total st.2 haa.Direction.In haa.Quantity.Packets
        + ((haa.successfulReads calls).length : Int) ∧
    haa.total (haa.streamRun pc st calls).2 haa.Direction.In haa.Quantity.Traffic
      = haa.total st.2 haa.Direction.In haa.Quantity.Traffic
        + ((haa.successfulReads calls).map fun m => (m.Size : Int)).sum ∧
    haa.total (haa.streamRun pc st calls).2 haa.Direction.Out haa.Quantity.Packets
      = haa.total st.2 haa.Direction.Out haa.Quantity.Packets
        + ((haa.writes calls).length : Int) ∧
    haa.total (haa.streamRun pc st calls).2 haa.Direction.Out haa.Quantity.Traffic
      = haa.total st.2 haa.Direction.Out haa.Quantity.Traffic
        + ((haa.writes calls).map fun m => (m.Size : Int)).sum := by
  induction calls generalizing st with
  | nil => simp [haa.streamRun, haa.successfulReads, haa.writes]
  | cons call rest ih =>
    have hrun : haa.streamRun pc st (call :: rest)
        = haa.streamRun pc (haa.streamStep pc st call) rest := by
      simp [haa.streamRun]
    rw [hrun]
    obtain ⟨h1, h2, h3, h4⟩ := ih (haa.streamStep pc st call)
    rw [h1, h2, h3, h4]
    cases call with
    | Init version =>
      simp [haa.streamStep, haa.successfulReads, haa.writes]
    | ReadMsg wrapped =>
      obtain ⟨msg, err⟩ := wrapped
      cases err with
      | some e =>
        simp [haa.streamStep, haa.successfulReads, haa.writes,
          haa.meteredMsgReadWriter.ReadMsg]
      | none =>
        simp only [haa.streamStep, readMsg_ok, total_append, total_pair, haa.successfulReads,
          haa.writes, List.length_cons, List.map_cons, List.sum_cons]
        simp
        refine ⟨?_, ?_⟩ <;> ring
    | WriteMsg msg wrapped =>
      simp only [haa.streamStep, writeMsg_ok, total_append, total_pair, haa.successfulReads,
        haa.writes, List.length_cons, List.map_cons, List.sum_cons]
      simp
      refine ⟨?_, ?_⟩ <;> ring

/-- C15: every message is accounted exactly once.  For every successfully read message,
`ReadMsg` marks exactly one inbound packets meter by 1 and the inbound traffic meter of
the same category by `msg.Size`, and no other meter; `WriteMsg` does the same with the
outbound meters, whatever the wrapped stream answers.  Hence after any sequence of
calls, starting with no marks, the sum of all inbound packets meters equals the number
of successful reads and the sum of all inbound traffic meters equals the sum of their
sizes; likewise for the outbound meters and the messages written. -/
theorem every_message_accounted_once (pc : haa.Protocol) (rw : haa.meteredMsgReadWriter) :
    (∀ msg : haa.Msg, ∃ c : haa.Category,
      rw.ReadMsg pc (msg, none)
        = ((msg, none),
            [⟨⟨c, haa.Direction.In, haa.Quantity.Packets⟩, 1⟩,
              ⟨⟨c, haa.Direction.In, haa.Quantity.Traffic⟩, (msg.Size : Int)⟩])) ∧
    (∀ (msg : haa.Msg) (wrapped : Option Err), ∃ c : haa.Category,
      rw.WriteMsg pc msg wrapped
        = (wrapped,
            [⟨⟨c, haa.Direction.Out, haa.Quantity.Packets⟩, 1⟩,
              ⟨⟨c, haa.Direction.Out, haa.Quantity.Traffic⟩, (msg.Size : Int)⟩])) ∧
    (∀ calls : List haa.StreamCall,
      haa.total (haa.streamRun pc (rw, []) calls).2 haa.Direction.In haa.Quantity.Packets
        = ((haa.successfulReads calls).length : Int) ∧
      haa.total (haa.streamRun pc (rw, []) calls).2 haa.Direction.In haa.Quantity.Traffic
        = ((haa.successfulReads calls).map fun m => (m.Size : Int)).sum ∧
      haa.total (haa.streamRun pc (rw, []) calls).2 haa.Direction.Out haa.Quantity.Packets
        = ((haa.writes calls).length : Int) ∧
      haa.total (haa.streamRun pc (rw, []) calls).2 haa.Direction.Out haa.Quantity.Traffic
        = ((haa.writes calls).map fun m => (m.Size : Int)).sum) := by
  refine ⟨fun msg => ⟨_, readMsg_ok pc rw msg⟩,
    fun msg wrapped => ⟨_, writeMsg_ok pc rw msg wrapped⟩, ?_⟩
  intro calls
  have h := streamRun_totals pc calls (rw, [])
  have h0 : ∀ d q, haa.total ([] : List haa.Mark) d q = 0 := by
    intro d q
    simp [haa.total, haa.Category.all, haa.count]
  simp only [h0, zero_add] at h
  exact h

/-- Witness for C15: in the sample session two messages are read successfully, with 150
bytes in total, and one message of 10 bytes is written; the block headers message is on
the header meters and the node data message (version 63) on the state meters. -/
theorem every_message_accounted_once_witness :
    haa.total (haa.streamRun sampleProtocol (⟨0⟩, []) sampleSession).2
        haa.Direction.In haa.Quantity.Packets = 2 ∧
      haa.total (haa.streamRun sampleProtocol (⟨0⟩, []) sampleSession).2
        haa.Direction.In haa.Quantity.Traffic = 150 ∧
      haa.count (haa.streamRun sampleProtocol (⟨0⟩, []) sampleSession).2
        haa.reqHeaderInTrafficMeter = 100 ∧
      haa.count (haa.streamRun sampleProtocol (⟨0⟩, []) sampleSession).2
        haa.reqStateInPacketsMeter = 1 ∧
      haa.count (haa.streamRun sampleProtocol (⟨0⟩, []) sampleSession).2
        haa.propTxnOutTrafficMeter = 10 :=
  have h := (every_message_accounted_once sampleProtocol ⟨0⟩).2.2 sampleSession
  ⟨h.1.trans (by decide), h.2.1.trans (by decide), by decide, by decide, by decide⟩

theorem classify_reqState (pc : haa.Protocol) (version : Int) (Code : Nat)
    (h : haa.classify pc version Code = haa.Category.reqState) :
    version ≥ pc.haa63 ∧ Code = pc.NodeDataMsg := by
  unfold haa.classify at h
  split_ifs at h with h1 h2 h3
  exact h3

theorem classify_reqReceipt (pc : haa.Protocol) (version : Int) (Code : Nat)
    (h : haa.classify pc version Code = haa.Category.reqReceipt) :
    version ≥ pc.haa63 ∧ Code = pc.ReceiptsMsg := by
  unfold haa.classify at h
  split_ifs at h with h1 h2 h3 h4
  exact h4

/-- The category of every mark `ReadMsg` and `WriteMsg` make for a message is the
category its code falls in. -/
theorem mark_category (pc : haa.Protocol) (rw : haa.meteredMsgReadWriter) (msg : haa.Msg)
    (wrapped : Option Err) (k : haa.Mark)
    (hk : k ∈ (rw.ReadMsg pc (msg, none)).2 ++ (rw.WriteMsg pc msg wrapped).2) :
    k.meter.category = haa.classify pc rw.version msg.Code := by
  rw [readMsg_ok, writeMsg_ok] at hk
  simp only [List.cons_append, List.nil_append, List.mem_cons, List.mem_singleton,
    List.not_mem_nil, or_false] at hk
  rcases hk with rfl | rfl | rfl | rfl <;> rfl

/-- C16: the protocol version set by `Init` selects the meters for the version-dependent
message ids.  A message is accounted to the state, respectively receipt, meters (by
`ReadMsg` or `WriteMsg`) only when the version is at least `haa63` and its code is
`NodeDataMsg`, respectively `ReceiptsMsg`; with a lower version, including the zero
version of a wrapper fresh from `newMeteredMsgWriter`, no message is accounted to the
state or receipt meters.  With a version of at least `haa63` such a message is accounted
to them (the message codes being distinct).  The meters of `BlockHeadersMsg` and
`BlockBodiesMsg` do not depend on the version. -/
theorem version_selects_meters (pc : haa.Protocol) (rw : haa.meteredMsgReadWriter)
    (version : Int) (msg : haa.Msg) (wrapped : Option Err) :
    (rw.Init version).version = version ∧
    (∀ k ∈ ((rw.Init version).ReadMsg pc (msg, none)).2
          ++ ((rw.Init version).WriteMsg pc msg wrapped).2,
      (k.meter.category = haa.Category.reqState →
        version ≥ pc.haa63 ∧ msg.Code = pc.NodeDataMsg) ∧
      (k.meter.category = haa.Category.reqReceipt →
        version ≥ pc.haa63 ∧ msg.Code = pc.ReceiptsMsg)) ∧
    (version < pc.haa63 →
      ∀ k ∈ ((rw.Init version).ReadMsg pc (msg, none)).2
          ++ ((rw.Init version).WriteMsg pc msg wrapped).2,
        k.meter.category ≠ haa.Category.reqState ∧
        k.meter.category ≠ haa.Category.reqReceipt) ∧
    (haa.newMeteredMsgWriter true = haa.MsgReadWriter.metered ⟨0⟩ ∧
      (0 < pc.haa63 →
        ∀ k ∈ ((⟨0⟩ : haa.meteredMsgReadWriter).ReadMsg pc (msg, none)).2
            ++ ((⟨0⟩ : haa.meteredMsgReadWriter).WriteMsg pc msg wrapped).2,
          k.meter.category ≠ haa.Category.reqState ∧
          k.meter.category ≠ haa.Category.reqReceipt)) ∧
    (version ≥ pc.haa63 → msg.Code = pc.NodeDataMsg →
      pc.NodeDataMsg ≠ pc.BlockHeadersMsg → pc.NodeDataMsg ≠ pc.BlockBodiesMsg →
      ((rw.Init version).ReadMsg pc (msg, none)).2
        = [⟨haa.reqStateInPacketsMeter, 1⟩, ⟨haa.reqStateInTrafficMeter, (msg.Size : Int)⟩] ∧
      ((rw.Init version).WriteMsg pc msg wrapped).2
        = [⟨haa.reqStateOutPacketsMeter, 1⟩,
            ⟨haa.reqStateOutTrafficMeter, (msg.Size : Int)⟩]) ∧
    (version ≥ pc.haa63 → msg.Code = pc.ReceiptsMsg →
      pc.ReceiptsMsg ≠ pc.BlockHeadersMsg → pc.ReceiptsMsg ≠ pc.BlockBodiesMsg →
      pc.ReceiptsMsg ≠ pc.NodeDataMsg →
      ((rw.Init version).ReadMsg pc (msg, none)).2
        = [⟨haa.reqReceiptInPacketsMeter, 1⟩,
            ⟨haa.reqReceiptInTrafficMeter, (msg.Size : Int)⟩] ∧
      ((rw.Init version).WriteMsg pc msg wrapped).2
        = [⟨haa.reqReceiptOutPacketsMeter, 1⟩,
            ⟨haa.reqReceiptOutTrafficMeter, (msg.Size : Int)⟩]) ∧
    (msg.Code = pc.BlockHeadersMsg ∨ msg.Code = pc.BlockBodiesMsg →
      ∀ other : Int,
        (rw.Init version).ReadMsg pc (msg, none) = (rw.Init other).ReadMsg pc (msg, none) ∧
        (rw.Init version).WriteMsg pc msg wrapped
          = (rw.Init other).WriteMsg pc msg wrapped) ∧
    (msg.Code = pc.BlockHeadersMsg →
      ((rw.Init version).ReadMsg pc (msg, none)).2
        = [⟨haa.reqHeaderInPacketsMeter, 1⟩,
            ⟨haa.reqHeaderInTrafficMeter, (msg.Size : Int)⟩]) ∧
    (msg.Code = pc.BlockBodiesMsg → pc.BlockBodiesMsg ≠ pc.BlockHeadersMsg →
      ((rw.Init version).ReadMsg pc (msg, none)).2
        = [⟨haa.reqBodyInPacketsMeter, 1⟩, ⟨haa.reqBodyInTrafficMeter, (msg.Size : Int)⟩]) := by
  have hv : (rw.Init version).version = version := rfl
  have honly : ∀ (r : haa.meteredMsgReadWriter),
      ∀ k ∈ (r.ReadMsg pc (msg, none)).2 ++ (r.WriteMsg pc msg wrapped).2,
      (k.meter.category = haa.Category.reqState →
        r.version ≥ pc.haa63 ∧ msg.Code = pc.NodeDataMsg) ∧
      (k.meter.category = haa.Category.reqReceipt →
        r.version ≥ pc.haa63 ∧ msg.Code = pc.ReceiptsMsg) := by
    intro r k hk
    have hc := mark_category pc r msg wrapped k hk
    rw [hc]
    exact ⟨classify_reqState pc _ _, classify_reqReceipt pc _ _⟩
  have hlow : ∀ (r : haa.meteredMsgReadWriter), r.version < pc.haa63 →
      ∀ k ∈ (r.ReadMsg pc (msg, none)).2 ++ (r.WriteMsg pc msg wrapped).2,
      k.meter.category ≠ haa.Category.reqState ∧
      k.meter.category ≠ haa.Category.reqReceipt := by
    intro r hr k hk
    obtain ⟨h1, h2⟩ := honly r k hk
    constructor
    · intro hcat
      have := (h1 hcat).1
      omega
    · intro hcat
      have := (h2 hcat).1
      omega
  refine ⟨hv, honly _, hlow _, ⟨by simp [haa.newMeteredMsgWriter], fun h0 => hlow ⟨0⟩ h0⟩,
    ?_, ?_, ?_, ?_, ?_⟩
  · intro hge hcode hn1 hn2
    have hcl : haa.classify pc version msg.Code = haa.Category.reqState := by
      simp [haa.classify, hcode, hn1, hn2, hge]
    rw [readMsg_ok, writeMsg_ok, hv, hcl]
    exact ⟨rfl, rfl⟩
  · intro hge hcode hn1 hn2 hn3
    have hcl : haa.classify pc version msg.Code = haa.Category.reqReceipt := by
      simp [haa.classify, hcode, hn1, hn2, hn3, hge]
    rw [readMsg_ok, writeMsg_ok, hv, hcl]
    exact ⟨rfl, rfl⟩
  · intro hcode other
    have hcl : haa.classify pc version msg.Code = haa.classify pc other msg.Code := by
      rcases hcode with hcode | hcode
      · simp [haa.classify, hcode]
      · simp [haa.classify, hcode]
    have ho : (rw.Init other).version = other := rfl
    rw [readMsg_ok, readMsg_ok, writeMsg_ok, writeMsg_ok, hv, ho, hcl]
    exact ⟨rfl, rfl⟩
  · intro hcode
    have hcl : haa.classify pc version msg.Code = haa.Category.reqHeader := by
      simp [haa.classify, hcode]
    rw [readMsg_ok, hv, hcl]
    rfl
  · intro hcode hne
    have hcl : haa.classify pc version msg.Code = haa.Category.reqBody := by
      simp [haa.classify, hcode, hne]
    rw [readMsg_ok, hv, hcl]
    rfl

/-- Witness for C16: with the go-ethereum constants a node data message (code 14) read
at version 63 is on the state meters, and read at version 62 or on a fresh wrapper
(version 0) it is on the misc meters. -/
theorem version_selects_meters_witness :
    (((⟨0⟩ : haa.meteredMsgReadWriter).Init 63).ReadMsg sampleProtocol
        (sampleMsg 14 50, none)).2
      = [⟨haa.reqStateInPacketsMeter, 1⟩, ⟨haa.reqStateInTrafficMeter, 50⟩] ∧
    (((⟨0⟩ : haa.meteredMsgReadWriter).Init 62).ReadMsg sampleProtocol
        (sampleMsg 14 50, none)).2
      = [⟨haa.miscInPacketsMeter, 1⟩, ⟨haa.miscInTrafficMeter, 50⟩] ∧
    ((⟨0⟩ : haa.meteredMsgReadWriter).ReadMsg sampleProtocol (sampleMsg 14 50, none)).2
      = [⟨haa.miscInPacketsMeter, 1⟩, ⟨haa.miscInTrafficMeter, 50⟩] :=
  ⟨((version_selects_meters sampleProtocol ⟨0⟩ 63 (sampleMsg 14 50) none).2.2.2.2.1
      (by decide) (by decide) (by decide) (by decide)).1,
    by decide, by decide⟩

end Haachain
